import Mathlib

/-!
Shallow embedding of the Tetris game engine (src/main.ts, final iteration,
together with the type/catalog module and src/util.ts).

Conventions of the embedding:
* JS numbers that only ever hold integers are modelled as `ℤ`; the one
  real-valued computation (`RNG.scale`) is modelled as `ℚ`.
* A JS array read `l[i]` is modelled by `jsGet l i : Option _`;
  `none` plays the role of `undefined`.
* A JS expression that throws a `TypeError` (indexing into `undefined`,
  or calling a method on it) is modelled by an `Option` failure (`none`)
  of the enclosing function.  Writes `g[i][j] = v` whose target cell does
  not exist are likewise modelled as failure (in the source the game only
  ever lands pieces whose occupied cells lie inside the grid).
-/

/-- Grid width from `Constants.GRID_WIDTH`. -/
def GRID_WIDTH : ℕ := 10

/-- Grid height from `Constants.GRID_HEIGHT`. -/
def GRID_HEIGHT : ℕ := 20

/-- A tetromino shape matrix (`type Tetromino = number[][]`). -/
abbrev Tetromino : Type := List (List ℤ)

/-- A game grid (`number[][]`, `GRID_HEIGHT` rows of `GRID_WIDTH` cells). -/
abbrev Grid : Type := List (List ℤ)

/-- Input directions (`type Direction = "left" | "up" | "right" | "down"`). -/
inductive Direction : Type
  | left
  | up
  | right
  | down
deriving DecidableEq, Repr

/-- The two event classes `TickEvent` and `InputEvent(direction)`. -/
inductive GameEvent : Type
  | tick
  | input (direction : Direction)
deriving DecidableEq, Repr

/-- The `State` record of the final iteration (types module). -/
structure State : Type where
  grid : Grid
  level : ℤ
  score : ℤ
  linesCleared : ℤ
  gameEnd : Bool
  col : ℤ
  row : ℤ
  currentTetromino : Tetromino
  nextTetromino : Tetromino
  seed : ℤ
deriving DecidableEq, Repr

/-- JS array read `l[idx]`: `none` models `undefined` (negative or too-large
index). -/
def jsGet {α : Type _} (l : List α) (idx : ℤ) : Option α :=
  if 0 ≤ idx then l.get? idx.toNat else none

/-- JS `Array.prototype.findIndex`: index of the first element satisfying
`p`, and `-1` when there is none. -/
def jsFindIndex {α : Type _} (p : α → Bool) : List α → ℤ
  | [] => -1
  | a :: l =>
    if p a then 0
    else
      let r := jsFindIndex p l
      if r = -1 then -1 else r + 1

/-- The LCG modulus `m = 0x80000000 = 2^31` from `util.ts`. -/
def RNG.m : ℤ := 2 ^ 31

/-- `RNG.hash` from `util.ts`, idealised to exact integer arithmetic:
`(a * seed + c) % m` with JS truncated `%`.  This agrees with the source's
IEEE-754 double arithmetic exactly when `a * seed + c < 2^53`; for larger
seeds the source's multiply and add round, and `RNG.hashFP` below is the
rounding-faithful model. -/
def RNG.hash (seed : ℤ) : ℤ :=
  Int.tmod (1103515245 * seed + 12345) RNG.m

/-- `RNG.scale` from `util.ts`: `hash / (m - 1)`, a real number modelled in `ℚ`. -/
def RNG.scale (hash : ℤ) : ℚ :=
  (hash : ℚ) / ((RNG.m : ℚ) - 1)

/-- Exponent of the spacing between consecutive IEEE-754 doubles around the
integer `n`: integers below `2^53` are exactly representable (spacing 1);
above, the representable values are the multiples of `2^(bits(n) - 53)`. -/
def fpExp (n : ℕ) : ℕ :=
  if n < 2 ^ 53 then 0 else n.log2 - 52

/-- Round an integer to the nearest IEEE-754 double, ties to even — what JS
number arithmetic does to every product and sum. -/
def roundDouble (n : ℕ) : ℕ :=
  let u := 2 ^ fpExp n
  let q := n / u
  let r := n % u
  if 2 * r < u then q * u
  else if u < 2 * r then (q + 1) * u
  else if q % 2 = 0 then q * u else (q + 1) * u

/-- `RNG.hash` as the source actually computes it on a non-negative integer
seed: `a * seed` and `+ c` are double operations, each rounding its exact
result to the nearest representable value, and `%` of the results is
exact. -/
def RNG.hashFP (seed : ℕ) : ℤ :=
  ((roundDouble (roundDouble (1103515245 * seed) + 12345) % 2 ^ 31 : ℕ) : ℤ)

/-- The seven-entry shape catalog `Tetrominos` from the types module. -/
def Tetrominos : List Tetromino :=
  [ [ [0, 0, 0, 0],
      [1, 1, 1, 1],
      [0, 0, 0, 0],
      [0, 0, 0, 0] ],
    [ [2, 0, 0],
      [2, 2, 2],
      [0, 0, 0] ],
    [ [0, 0, 3],
      [3, 3, 3],
      [0, 0, 0] ],
    [ [4, 4],
      [4, 4] ],
    [ [0, 5, 5],
      [5, 5, 0],
      [0, 0, 0] ],
    [ [0, 6, 0],
      [6, 6, 6],
      [0, 0, 0] ],
    [ [7, 7, 0],
      [0, 7, 7],
      [0, 0, 0] ] ]

/-- The piece index `Math.floor(RNG.scale(randomNumber) * Tetrominos.length)`
computed by `randomTetromino`. -/
def pieceIndex (randomNumber : ℤ) : ℤ :=
  Int.floor (RNG.scale randomNumber * 7)

/-- `randomTetromino` from main.ts: catalog lookup at the scaled index; an
out-of-range index yields `undefined`, modelled as `none`. -/
def randomTetromino (randomNumber : ℤ) : Option Tetromino :=
  jsGet Tetrominos (pieceIndex randomNumber)

/-- `clearGame` from main.ts: a `GRID_HEIGHT × GRID_WIDTH` grid of zeros. -/
def clearGame : Grid :=
  List.replicate GRID_HEIGHT (List.replicate GRID_WIDTH (0 : ℤ))

/-- `updatePosition` from main.ts: a cell keeps its value unless it was 0. -/
def updatePosition (position : ℤ) (column : ℤ) : ℤ :=
  if position = 0 then column else position

/-- `findFirstNonEmptyRowIndex` from main.ts: the negation of
`findIndex(row => row.some(block => block !== 0))`. -/
def findFirstNonEmptyRowIndex (tetromino : Tetromino) : ℤ :=
  -(jsFindIndex (fun row => row.any fun block => decide (block ≠ 0)) tetromino)

/-- Index of the last row containing a nonzero entry, `-1` when there is
none: the value computed by the `reduceRight` in
`findLastNonEmptyRowIndex` (main.ts). -/
def lastIdxAux : List (List ℤ) → ℤ
  | [] => -1
  | row :: rest =>
    let r := lastIdxAux rest
    if r = -1 then (if row.any (fun block => decide (block ≠ 0)) then 0 else -1)
    else r + 1

/-- `findLastNonEmptyRowIndex` from main.ts (it takes the whole state). -/
def findLastNonEmptyRowIdx (state : State) : ℤ :=
  lastIdxAux state.currentTetromino

/-- `isOnGround` from main.ts. -/
def isOnGround (state : State) : Bool :=
  decide (state.row + findLastNonEmptyRowIdx state = (GRID_HEIGHT : ℤ) - 1)

/-- `isCollidingAtCell` from main.ts.  `none` models the `TypeError` thrown
when a grid row index is out of range; an out-of-range column read yields
`undefined`, and `undefined !== 0` is `true`. -/
def isCollidingAtCell (state : State) (i j : ℕ) (deltaRow deltaCol : ℤ) :
    Option Bool :=
  match state.currentTetromino.get? i with
  | none => none
  | some shapeRow =>
    if jsGet shapeRow (j : ℤ) ≠ some 0 then
      if isOnGround state then some false
      else
        match jsGet state.grid ((i : ℤ) + state.row + deltaRow) with
        | none => none
        | some gridRow =>
          some (decide (jsGet gridRow ((j : ℤ) + state.col + deltaCol) ≠ some 0))
    else some false

/-- JS `shape.some((row, i) => row.some((_, j) => f i j))` over an
`Option Bool`-valued cell predicate: row-major iteration with the
short-circuiting of `&&`/`some`, propagating failure. -/
def someIdxM {α : Type _} : List α → (ℕ → α → Option Bool) → Option Bool
  | [], _ => some false
  | a :: rest, f =>
    match f 0 a with
    | none => none
    | some true => some true
    | some false => someIdxM rest fun k b => f (k + 1) b

/-- `isStackingOnBlocks` from main.ts. -/
def isStackingOnBlocks (state : State) : Option Bool :=
  someIdxM state.currentTetromino fun i row =>
    someIdxM row fun j _ => isCollidingAtCell state i j 1 0

/-- `isSideColliding` from main.ts. -/
def isSideColliding (state : State) (deltaCol : ℤ) : Option Bool :=
  someIdxM state.currentTetromino fun i row =>
    someIdxM row fun j _ => isCollidingAtCell state i j 0 deltaCol

/-- `boundX` from main.ts: on a horizontal overhang, permit the position if
the checked shape column is all empty, otherwise clamp. -/
def boundX (state : State) : State :=
  let x := state.col
  if x < 0 then
    if state.currentTetromino.all
        (fun row => decide (0 < row.length ∧ jsGet row (-x - 1) = some 0)) then
      state
    else { state with col := 0 }
  else if x > (GRID_WIDTH : ℤ) - state.currentTetromino.length then
    if state.currentTetromino.all
        (fun row =>
          decide (0 < row.length ∧ jsGet row ((GRID_WIDTH : ℤ) - x) = some 0)) then
      state
    else { state with col := (GRID_WIDTH : ℤ) - state.currentTetromino.length }
  else state

/-- `boundY` from main.ts: `none` models the `TypeError` thrown when the
checked shape row does not exist. -/
def boundY (state : State) : Option State :=
  let y := state.row
  if y < 0 then
    match jsGet state.currentTetromino (-y - 1) with
    | none => none
    | some shapeRow =>
      if shapeRow.all (fun c => decide (c = 0)) then some state
      else some { state with row := 0 }
  else if y > (GRID_HEIGHT : ℤ) - state.currentTetromino.length then
    match jsGet state.currentTetromino ((GRID_HEIGHT : ℤ) - y) with
    | none => none
    | some shapeRow =>
      if shapeRow.all (fun c => decide (c = 0)) then some state
      else
        some { state with
                row := (GRID_HEIGHT : ℤ) - state.currentTetromino.length }
  else some state

/-- `checkBounds` from main.ts. -/
def checkBounds (state : State) : Option State :=
  boundY (boundX state)

/-- Read grid cell `g[r][c]`; `none` when the row does not exist or the
column is out of range. -/
def readCell (g : Grid) (r c : ℤ) : Option ℤ := do
  let row ← jsGet g r
  jsGet row c

/-- Write grid cell `g[r][c] = v`; fails when the target cell does not
exist (see the module conventions). -/
def setCell (g : Grid) (r c : ℤ) (v : ℤ) : Option Grid :=
  match jsGet g r with
  | none => none
  | some row =>
    if 0 ≤ c ∧ c < (row.length : ℤ) then
      some (g.set r.toNat (row.set c.toNat v))
    else none

/-- One row of the grid-copy loop in `tetrominoLanded`
(`row.forEach((col, j) => newGrid[i][j] = col)`), starting at column `j`. -/
def writeRowFrom (g : Grid) (i : ℕ) (j : ℕ) : List ℤ → Option Grid
  | [] => some g
  | v :: rest => do
    let g' ← setCell g (i : ℤ) (j : ℤ) v
    writeRowFrom g' i (j + 1) rest

/-- The grid-copy loop of `tetrominoLanded`
(`s.grid.forEach((row, i) => ...)`), starting at row `i`. -/
def copyRowsFrom (g : Grid) (i : ℕ) : List (List ℤ) → Option Grid
  | [] => some g
  | row :: rest => do
    let g' ← writeRowFrom g i 0 row
    copyRowsFrom g' (i + 1) rest

/-- Copy `src` cell-by-cell onto `dst` (the first loop of
`tetrominoLanded`). -/
def copyGrid (src dst : Grid) : Option Grid :=
  copyRowsFrom dst 0 src

/-- One row of the piece-commit loop of `tetrominoLanded`: occupied cells
(`col !== 0`) are written through `updatePosition`, starting at column `j`. -/
def landRowFrom (s : State) (g : Grid) (i : ℕ) (j : ℕ) : List ℤ → Option Grid
  | [] => some g
  | v :: rest =>
    if v ≠ 0 then do
      let old ← readCell g ((i : ℤ) + s.row) ((j : ℤ) + s.col)
      let g' ← setCell g ((i : ℤ) + s.row) ((j : ℤ) + s.col) (updatePosition old v)
      landRowFrom s g' i (j + 1) rest
    else landRowFrom s g i (j + 1) rest

/-- The piece-commit loop of `tetrominoLanded`
(`s.currentTetromino.forEach((row, i) => ...)`), starting at row `i`. -/
def landRowsFrom (s : State) (g : Grid) (i : ℕ) : List (List ℤ) → Option Grid
  | [] => some g
  | row :: rest => do
    let g' ← landRowFrom s g i 0 row
    landRowsFrom s g' (i + 1) rest

/-- `createNewState` from main.ts.  The impure `Date.now()` used to seed a
fresh game is passed explicitly as `seed`; it is unused when a previous
state is supplied, exactly as in the source (where the two shape draws made
from it are dead code on that branch). -/
def createNewState (seed : ℤ) (previousState : Option State) : Option State :=
  match previousState with
  | some prev => do
    let next ← randomTetromino prev.seed
    some { prev with
            col := Int.fdiv ((GRID_WIDTH : ℤ) - prev.nextTetromino.length) 2,
            row := findFirstNonEmptyRowIndex prev.nextTetromino,
            currentTetromino := prev.nextTetromino,
            nextTetromino := next,
            seed := RNG.hash prev.seed }
  | none => do
    let randomNumber1 := RNG.hash seed
    let randomNumber2 := RNG.hash randomNumber1
    let newTetromino1 ← randomTetromino randomNumber1
    let newTetromino2 ← randomTetromino randomNumber2
    some { grid := clearGame,
           level := 0,
           score := 0,
           linesCleared := 0,
           gameEnd := false,
           col := Int.fdiv ((GRID_WIDTH : ℤ) - newTetromino1.length) 2,
           row := findFirstNonEmptyRowIndex newTetromino1,
           currentTetromino := newTetromino1,
           nextTetromino := newTetromino2,
           seed := RNG.hash randomNumber2 }

/-- `tetrominoLanded` from main.ts: commit the piece into a copy of the
grid, roll the sequencer forward, and end the game if the fresh piece is
already stacking. -/
def tetrominoLanded (s : State) : Option State := do
  let g1 ← copyGrid s.grid clearGame
  let g2 ← landRowsFrom s g1 0 s.currentTetromino
  let newState ← createNewState 0 (some { s with grid := g2 })
  let stacking ← isStackingOnBlocks newState
  if stacking then some { newState with gameEnd := true } else some newState

/-- `checkStackingOnBlocks` from main.ts. -/
def checkStackingOnBlocks (state : State) : Option State := do
  let stacking ← isStackingOnBlocks state
  if stacking then tetrominoLanded state else some state

/-- `checkSideCollisions` from main.ts. -/
def checkSideCollisions (state : State) (direction : Direction) : Option State :=
  let deltaCol : ℤ := if direction = Direction.left then -1 else 1
  do
    let colliding ← isSideColliding state deltaCol
    if colliding then some state
    else checkStackingOnBlocks { state with col := state.col + deltaCol }

/-- `checkCollisions` from main.ts (`direction` defaults to `null`). -/
def checkCollisions (state : State) (direction : Option Direction) : Option State :=
  match direction with
  | some d => checkSideCollisions state d
  | none =>
    if isOnGround state then tetrominoLanded state
    else checkStackingOnBlocks state

/-- The 90° matrix transform used by `rotate`:
`m[0].map((_, j) => m.map(row => row[j]).reverse())`.  Shape rows are
uniform in width (catalog invariant), so `row[j]` is modelled by `getD`. -/
def rotateMatrix (m : List (List ℤ)) : List (List ℤ) :=
  (List.range (m.headD []).length).map fun j =>
    (m.map fun row => row.getD j 0).reverse

/-- `rotate` from main.ts: rotate, re-bound, reject on a side collision at
zero delta, otherwise run the normal collision pipeline.  `none` models the
`TypeError` on an empty shape (`m[0]` is `undefined`). -/
def rotate (state : State) : Option State :=
  match state.currentTetromino with
  | [] => none
  | _ => do
    let newState ← checkBounds
      { state with currentTetromino := rotateMatrix state.currentTetromino }
    let colliding ← isSideColliding newState 0
    if colliding then some state else checkCollisions newState none

/-- `tick` from main.ts. -/
def tick (s : State) : Option State :=
  (checkCollisions { s with row := s.row + 1 } none).bind checkBounds

/-- `move` from main.ts. -/
def move (state : State) (direction : Direction) : Option State :=
  match direction with
  | Direction.left => (checkCollisions state (some Direction.left)).bind checkBounds
  | Direction.right => (checkCollisions state (some Direction.right)).bind checkBounds
  | Direction.down =>
    (checkCollisions { state with row := state.row + 1 } none).bind checkBounds
  | Direction.up => (rotate state).bind checkBounds

/-- `processEvent` from main.ts (the `instanceof` fall-through is
unreachable for the two event classes). -/
def processEvent (event : GameEvent) (state : State) : Option State :=
  match event with
  | GameEvent.tick => tick state
  | GameEvent.input d => move state d

/-- `updateScore` from main.ts: drop the first fully nonzero row, prepend
an empty row, bump score and the line-clear counter, rolling the counter
into the level every tenth clear. -/
def updateScore (state : State) : State :=
  let filledRowIndex :=
    jsFindIndex (fun row => row.all fun block => decide (block ≠ 0)) state.grid
  if filledRowIndex > -1 then
    { state with
      grid := List.replicate GRID_WIDTH (0 : ℤ) ::
        (state.grid.take filledRowIndex.toNat ++
          state.grid.drop (filledRowIndex.toNat + 1)),
      level := if state.linesCleared + 1 = 10 then state.level + 1 else state.level,
      score := state.score + 10,
      linesCleared := if state.linesCleared + 1 = 10 then 0 else state.linesCleared + 1 }
  else state

/-- The bookkeeping invariant of a single engine step: `score`, `level`
and `linesCleared` are carried over unchanged, and a set `gameEnd` flag is
never cleared. -/
def Keeps (s t : State) : Prop :=
  t.score = s.score ∧ t.level = s.level ∧ t.linesCleared = s.linesCleared ∧
    (s.gameEnd = true → t.gameEnd = true)

/-! ### Concrete states used as witnesses and counterexamples -/

/-- A state whose top row is full, with the line counter at 9. -/
def csC1 : State :=
  { grid := [[1, 2], [0, 3], [4, 4]], level := 0, score := 0, linesCleared := 9,
    gameEnd := false, col := 0, row := 0, currentTetromino := [[1]],
    nextTetromino := [[1]], seed := 0 }

/-- A state standing at the left wall whose shape has an occupied cell in
column 0 but an empty column 1: reachable only with `col = -2` in an
artificial shape, used to probe the overhang check of `boundX`. -/
def csC3 : State :=
  { grid := clearGame, level := 0, score := 0, linesCleared := 0,
    gameEnd := false, col := -2, row := 0, currentTetromino := [[5, 0], [0, 0]],
    nextTetromino := [[4, 4], [4, 4]], seed := 0 }

/-- A game-over state with the falling piece still high up the board. -/
def csC6 : State :=
  { grid := clearGame, level := 0, score := 0, linesCleared := 0,
    gameEnd := true, col := 4, row := 0,
    currentTetromino := [[2, 0, 0], [2, 2, 2], [0, 0, 0]],
    nextTetromino := [[4, 4], [4, 4]], seed := 0 }

/-- The state reached from `createNewState 0 none` (first piece I, drawn
from hash chain 12345, 1406932606) by three left moves: the I piece stands
at the left wall with `col = 0` and `row = -1`. -/
def csC7 : State :=
  { grid := clearGame, level := 0, score := 0, linesCleared := 0,
    gameEnd := false, col := 0, row := -1,
    currentTetromino :=
      [[0, 0, 0, 0], [1, 1, 1, 1], [0, 0, 0, 0], [0, 0, 0, 0]],
    nextTetromino := [[0, 5, 5], [5, 5, 0], [0, 0, 0]],
    seed := 654583775 }

/-- An on-ground state: the J piece rests on the floor (`row = 18`, last
occupied shape row 1) while landed blocks fill columns 0–2 of the two
bottom grid rows, directly left of the piece. -/
def csC9 : State :=
  { grid := List.replicate 18 (List.replicate 10 (0 : ℤ)) ++
      [[7, 7, 7, 0, 0, 0, 0, 0, 0, 0], [7, 7, 7, 0, 0, 0, 0, 0, 0, 0]],
    level := 0, score := 0, linesCleared := 0, gameEnd := false, col := 3,
    row := 18, currentTetromino := [[2, 0, 0], [2, 2, 2], [0, 0, 0]],
    nextTetromino := [[4, 4], [4, 4]], seed := 0 }

/-- An O piece resting on the floor of an empty grid, about to land. -/
def csC2w : State :=
  { grid := clearGame, level := 1, score := 20, linesCleared := 3,
    gameEnd := false, col := 4, row := 18, currentTetromino := [[4, 4], [4, 4]],
    nextTetromino := [[0, 6, 0], [6, 6, 6], [0, 0, 0]], seed := 654583775 }

/-- The transpose of a shape matrix as the spec describes the rotation's
first half: row `j` of the result is column `j` of `m`, with the column
count taken from the first row (matching the code's iteration). -/
def transposeSpec (m : List (List ℤ)) : List (List ℤ) :=
  (List.range (m.headD []).length).map fun j => m.map fun row => row.getD j 0

/-- A square shape matrix (SquareShape): every row is as long as the list of rows. -/
def SquareShape (m : List (List ℤ)) : Prop :=
  ∀ row ∈ m, row.length = m.length

/-- Entry `(i, j)` of a shape matrix, with 0 as default. -/
def entryZ (m : List (List ℤ)) (i j : ℕ) : ℤ :=
  (m.getD i []).getD j 0

/-- A run of the engine: `IsTrace s events states` holds when feeding
`events` one at a time through `processEvent`, starting from `s`, yields
exactly the successive states `states`. -/
inductive IsTrace : State → List GameEvent → List State → Prop
  | nil (s : State) : IsTrace s [] []
  | cons {s s' : State} {e : GameEvent} {es : List GameEvent} {tr : List State} :
      processEvent e s = some s' → IsTrace s' es tr →
      IsTrace s (e :: es) (s' :: tr)

/-! ### Library-style helper lemmas -/

theorem jsGet_natCast {α : Type _} (l : List α) (n : ℕ) :
    jsGet l (n : ℤ) = l.get? n := by
  simp [jsGet]

theorem jsGet_neg {α : Type _} (l : List α) {idx : ℤ} (h : idx < 0) :
    jsGet l idx = none := by
  simp only [jsGet, if_neg (by omega : ¬ 0 ≤ idx)]

theorem jsFindIndex_eq_of {α : Type _} (p : α → Bool) (d : α) :
    ∀ (l : List α) (r : ℕ), r < l.length → p (l.getD r d) = true →
      (∀ i : ℕ, i < r → p (l.getD i d) = false) →
      jsFindIndex p l = r
  | [], r, hr, _, _ => absurd hr (by simp)
  | a :: l, 0, _, hp, _ => by
    simp only [List.getD_cons_zero] at hp
    simp [jsFindIndex, hp]
  | a :: l, r + 1, hr, hp, hbefore => by
    have ha : p a = false := by
      have := hbefore 0 (Nat.succ_pos r)
      simpa using this
    have ih : jsFindIndex p l = r := by
      refine jsFindIndex_eq_of p d l r (by simpa using hr) (by simpa using hp) ?_
      intro i hi
      have := hbefore (i + 1) (by omega)
      simpa using this
    simp only [jsFindIndex, ha, Bool.false_eq_true, if_false, ih]
    have : ¬ ((r : ℤ) = -1) := by omega
    simp only [this, if_false]
    push_cast
    ring

theorem jsFindIndex_eq_neg_one {α : Type _} (p : α → Bool) :
    ∀ (l : List α), (∀ a ∈ l, p a = false) → jsFindIndex p l = -1
  | [], _ => rfl
  | a :: l, h => by
    have ha : p a = false := h a (List.mem_cons_self a l)
    have ih : jsFindIndex p l = -1 :=
      jsFindIndex_eq_neg_one p l fun b hb => h b (List.mem_cons_of_mem a hb)
    simp [jsFindIndex, ha, ih]

/-! ### C1: updateScore clears exactly the first full row -/

/-- C1: `updateScore` scans the grid top-to-bottom for the first row whose
cells are all nonzero; if that row is `r`, the result has row `r` removed,
an all-zero row prepended, score increased by 10, and `linesCleared`
incremented — except that when `linesCleared + 1 = 10` the level increases
by 1 and `linesCleared` resets to 0.  At most one row is removed per call,
and if no row is full the state is returned unchanged. -/
theorem updateScore_clears_first_full_row (s : State) :
    (∀ r : ℕ, r < s.grid.length →
      (∀ c ∈ s.grid.getD r [], c ≠ 0) →
      (∀ i : ℕ, i < r → ∃ c ∈ s.grid.getD i [], c = 0) →
      updateScore s =
        { s with
          grid := List.replicate GRID_WIDTH (0 : ℤ) :: s.grid.eraseIdx r,
          score := s.score + 10,
          level := if s.linesCleared + 1 = 10 then s.level + 1 else s.level,
          linesCleared :=
            if s.linesCleared + 1 = 10 then 0 else s.linesCleared + 1 }) ∧
    ((∀ row ∈ s.grid, ∃ c ∈ row, c = 0) → updateScore s = s) := by
  constructor
  · intro r hr hfull hbefore
    have hp : (s.grid.getD r []).all (fun block => decide (block ≠ 0)) = true := by
      simp only [List.all_eq_true, decide_eq_true_eq]
      exact hfull
    have hq : ∀ i : ℕ, i < r →
        (s.grid.getD i []).all (fun block => decide (block ≠ 0)) = false := by
      intro i hi
      obtain ⟨c, hc, hc0⟩ := hbefore i hi
      simp only [List.all_eq_false]
      exact ⟨c, hc, by simp [hc0]⟩
    have hfind :
        jsFindIndex (fun row => row.all fun block => decide (block ≠ 0)) s.grid
          = r :=
      jsFindIndex_eq_of _ [] s.grid r hr hp hq
    unfold updateScore
    rw [hfind]
    rw [if_pos (by omega : (r : ℤ) > -1)]
    rw [List.eraseIdx_eq_take_drop_succ]
    simp
  · intro hall
    have hfind :
        jsFindIndex (fun row => row.all fun block => decide (block ≠ 0)) s.grid
          = -1 := by
      refine jsFindIndex_eq_neg_one _ s.grid ?_
      intro row hrow
      obtain ⟨c, hc, hc0⟩ := hall row hrow
      simp only [List.all_eq_false]
      exact ⟨c, hc, by simp [hc0]⟩
    unfold updateScore
    rw [hfind]
    simp

/-- Witness for C1 at a concrete state: the full top row `[1, 2]` is
removed, a zero row is prepended, and the ninth clear rolls the counter
into the level. -/
theorem updateScore_clears_first_full_row_witness :
    updateScore csC1 =
      { csC1 with
        grid := List.replicate GRID_WIDTH (0 : ℤ) :: csC1.grid.eraseIdx 0,
        score := csC1.score + 10,
        level := if csC1.linesCleared + 1 = 10 then csC1.level + 1 else csC1.level,
        linesCleared :=
          if csC1.linesCleared + 1 = 10 then 0 else csC1.linesCleared + 1 } :=
  (updateScore_clears_first_full_row csC1).1 0 (by decide) (by decide)
    (fun i hi => absurd hi (Nat.not_lt_zero i))

/-! ### C4: range of RNG.scale and the piece index -/

/-- Range facts shared by the C4 development: `RNG.hash` of a non-negative
seed lies in `[0, 2^31)`, and for every hash value `h` strictly below
`2^31 - 1`, `scale h` lies in `[0, 1)` and `floor(scale h * 7)` is a valid
index into the 7-entry catalog, so `randomTetromino h` returns a catalog
entry.  (The mathematical function `scale` reaches exactly 1 at the
excluded endpoint `2^31 - 1`, which `hashFP_ne_max` below shows the
source's double-arithmetic hash can never emit.) -/
theorem scale_and_pieceIndex_bounds (h : ℤ) (h0 : 0 ≤ h) (h1 : h < RNG.m - 1) :
    (∀ s : ℤ, 0 ≤ s → 0 ≤ RNG.hash s ∧ RNG.hash s < RNG.m) ∧
      0 ≤ RNG.scale h ∧ RNG.scale h < 1 ∧
      0 ≤ pieceIndex h ∧ pieceIndex h ≤ 6 ∧ (randomTetromino h).isSome := by
  have hm : ((RNG.m : ℚ) - 1) = 2147483647 := by norm_num [RNG.m]
  have hmz : RNG.m = 2147483648 := by norm_num [RNG.m]
  have hscale0 : 0 ≤ RNG.scale h := by
    rw [RNG.scale, hm]
    positivity
  have hscale1 : RNG.scale h < 1 := by
    rw [RNG.scale, hm]
    rw [div_lt_one (by norm_num)]
    have hlt : h < (2147483647 : ℤ) := by omega
    have : (h : ℚ) < ((2147483647 : ℤ) : ℚ) := by exact_mod_cast hlt
    simpa using this
  have hpi0 : 0 ≤ pieceIndex h := by
    rw [pieceIndex]
    exact Int.floor_nonneg.mpr (by positivity)
  have hpi6 : pieceIndex h ≤ 6 := by
    have : pieceIndex h < 7 := by
      rw [pieceIndex]
      rw [Int.floor_lt]
      push_cast
      nlinarith [hscale0, hscale1]
    omega
  refine ⟨?_, hscale0, hscale1, hpi0, hpi6, ?_⟩
  · intro s hs
    constructor
    · exact Int.tmod_nonneg _ (by nlinarith) 
    · exact Int.tmod_lt_of_pos _ (by norm_num [RNG.m])
  · have h7 : pieceIndex h = 0 ∨ pieceIndex h = 1 ∨ pieceIndex h = 2 ∨
        pieceIndex h = 3 ∨ pieceIndex h = 4 ∨ pieceIndex h = 5 ∨
        pieceIndex h = 6 := by omega
    rcases h7 with h' | h' | h' | h' | h' | h' | h' <;>
      simp [randomTetromino, h', jsGet, Tetrominos]

theorem roundDouble_eq_self {n : ℕ} (h : n < 2 ^ 53) : roundDouble n = n := by
  have h2 : n < 9007199254740992 := by omega
  simp [roundDouble, fpExp, h, h2, Nat.mod_one]

theorem roundDouble_big {n : ℕ} (h : 2 ^ 53 ≤ n) :
    2 ∣ roundDouble n ∧ 2 ^ 53 ≤ roundDouble n := by
  have hn0 : n ≠ 0 := by
    intro h0
    rw [h0] at h
    exact absurd h (by norm_num)
  have h53 : 53 ≤ n.log2 := by
    by_contra hlt
    push_neg at hlt
    rw [Nat.log2_lt hn0] at hlt
    omega
  have hpow : 2 ^ n.log2 ≤ n := Nat.log2_self_le hn0
  have hnotlt : ¬ n < 2 ^ 53 := by omega
  have hfp : fpExp n = n.log2 - 52 := by
    rw [fpExp, if_neg hnotlt]
  have hq : 2 ^ 52 ≤ n / 2 ^ (n.log2 - 52) := by
    rw [Nat.le_div_iff_mul_le (by positivity)]
    calc 2 ^ 52 * 2 ^ (n.log2 - 52) = 2 ^ (52 + (n.log2 - 52)) :=
          (pow_add 2 52 _).symm
      _ = 2 ^ n.log2 := by
          congr 1
          omega
      _ ≤ n := hpow
  have hkey : ∀ m : ℕ, n / 2 ^ (n.log2 - 52) ≤ m →
      2 ∣ m * 2 ^ (n.log2 - 52) ∧ 2 ^ 53 ≤ m * 2 ^ (n.log2 - 52) := by
    intro m hm
    have hdvd : (2 : ℕ) ∣ 2 ^ (n.log2 - 52) := dvd_pow_self 2 (by omega)
    refine ⟨Dvd.dvd.mul_left hdvd m, ?_⟩
    calc (2 : ℕ) ^ 53 = 2 ^ 52 * 2 ^ 1 := by norm_num
      _ ≤ m * 2 ^ (n.log2 - 52) :=
        Nat.mul_le_mul (le_trans hq hm)
          (Nat.pow_le_pow_right (by norm_num) (by omega))
  simp only [roundDouble, hfp]
  split_ifs with h1 h2 h3
  · exact hkey _ (le_refl _)
  · exact hkey _ (Nat.le_succ _)
  · exact hkey _ (le_refl _)
  · exact hkey _ (Nat.le_succ _)

theorem no_preimage_of_max_exact (s : ℕ)
    (h : 1103515245 * s + 12345 < 9007199254740992) :
    (1103515245 * s + 12345) % 2147483648 ≠ 2147483647 := by
  intro hcon
  have h1 : 1103515245 * s + 12345 ≡ 2147483647 [MOD 2147483648] := by
    show (1103515245 * s + 12345) % 2147483648 = 2147483647 % 2147483648
    rw [hcon]
  have h2 : 1857678181 * (1103515245 * s + 12345) ≡
      1857678181 * 2147483647 [MOD 2147483648] := h1.mul_left 1857678181
  have h3 : (1857678181 * 1103515245) * s ≡ 1 * s [MOD 2147483648] :=
    Nat.ModEq.mul_right s (by decide)
  have h4 : s + 1857678181 * 12345 ≡
      1857678181 * (1103515245 * s + 12345) [MOD 2147483648] := by
    have hre : (1857678181 * 1103515245) * s + 1857678181 * 12345 =
        1857678181 * (1103515245 * s + 12345) := by ring
    calc s + 1857678181 * 12345
        ≡ (1857678181 * 1103515245) * s + 1857678181 * 12345
          [MOD 2147483648] := by
          exact Nat.ModEq.add_right _ (by simpa using h3.symm)
      _ = 1857678181 * (1103515245 * s + 12345) := hre
  have h5 : s + 22933037144445 ≡
      1857678181 * 2147483647 [MOD 2147483648] := by
    have h45 := h4.trans h2
    simpa using h45
  unfold Nat.ModEq at h5
  clear hcon h1 h2 h3 h4
  omega

theorem hashFP_ne_max (seed : ℕ) : RNG.hashFP seed ≠ RNG.m - 1 := by
  have h53 : (2 : ℕ) ^ 53 = 9007199254740992 := by norm_num
  have hnat : roundDouble (roundDouble (1103515245 * seed) + 12345) % 2 ^ 31 ≠
      2147483647 := by
    by_cases hA : 1103515245 * seed + 12345 < 2 ^ 53
    · rw [roundDouble_eq_self (show 1103515245 * seed < 2 ^ 53 by omega),
        roundDouble_eq_self hA]
      have h31 : (2 : ℕ) ^ 31 = 2147483648 := by norm_num
      rw [h31]
      exact no_preimage_of_max_exact seed (by omega)
    · push_neg at hA
      have hbig : 2 ^ 53 ≤ roundDouble (1103515245 * seed) + 12345 := by
        by_cases hB : 1103515245 * seed < 2 ^ 53
        · rw [roundDouble_eq_self hB]
          omega
        · push_neg at hB
          have hge := (roundDouble_big hB).2
          omega
      obtain ⟨k, hk⟩ := (roundDouble_big hbig).1
      rw [hk]
      have h31 : (2 : ℕ) ^ 31 = 2147483648 := by norm_num
      rw [h31]
      omega
  rw [RNG.hashFP]
  intro hcon
  refine hnat ?_
  have hm : RNG.m - 1 = (2147483647 : ℤ) := by norm_num [RNG.m]
  rw [hm] at hcon
  exact_mod_cast hcon

theorem hashFP_range (seed : ℕ) :
    0 ≤ RNG.hashFP seed ∧ RNG.hashFP seed < RNG.m := by
  rw [RNG.hashFP]
  have hm : RNG.m = ((2 ^ 31 : ℕ) : ℤ) := by norm_num [RNG.m]
  constructor
  · exact Int.ofNat_nonneg _
  · rw [hm]
    exact_mod_cast Nat.mod_lt _ (by norm_num)

/-- C4: every hash value the source's `hash` can actually produce on a
non-negative seed lies in `[0, 2^31 - 1)` — the source computes in IEEE-754
double arithmetic, modelled exactly by `RNG.hashFP`, and the endpoint
`2^31 - 1` is unattainable: in the float-exact regime
(`a * seed + c < 2^53`) a preimage would have to be
`≡ 230538014 (mod 2^31)`, which lies outside that regime, and once rounding
sets in every output is even while `2^31 - 1` is odd.  Hence `scale` of an
attainable hash lies in `[0, 1)`, the piece index `floor(scale * 7)` lies
in `[0, 6]`, and `randomTetromino` always returns a defined catalog
entry. -/
theorem scale_and_pieceIndex_on_attainable_hashes (seed : ℕ) :
    0 ≤ RNG.hashFP seed ∧ RNG.hashFP seed < RNG.m - 1 ∧
    0 ≤ RNG.scale (RNG.hashFP seed) ∧ RNG.scale (RNG.hashFP seed) < 1 ∧
    0 ≤ pieceIndex (RNG.hashFP seed) ∧ pieceIndex (RNG.hashFP seed) ≤ 6 ∧
    (randomTetromino (RNG.hashFP seed)).isSome = true := by
  obtain ⟨h0, hlt⟩ := hashFP_range seed
  have hne := hashFP_ne_max seed
  have hm : RNG.m = 2147483648 := by norm_num [RNG.m]
  have h1 : RNG.hashFP seed < RNG.m - 1 := by omega
  have hmain := scale_and_pieceIndex_bounds (RNG.hashFP seed) h0 h1
  exact ⟨h0, h1, hmain.2.1, hmain.2.2.1, hmain.2.2.2.1, hmain.2.2.2.2.1,
    hmain.2.2.2.2.2⟩

/-- C4 witness: the attainable-hash range facts at the concrete seed
230538014 — the residue that would be needed to reach `2^31 - 1` in the
float-exact regime, whose actual double-arithmetic hash is far from it. -/
theorem scale_and_pieceIndex_on_attainable_hashes_witness :
    0 ≤ pieceIndex (RNG.hashFP 230538014) ∧
      pieceIndex (RNG.hashFP 230538014) ≤ 6 ∧
      (randomTetromino (RNG.hashFP 230538014)).isSome = true := by
  obtain ⟨_, _, _, _, h5, h6, h7⟩ :=
    scale_and_pieceIndex_on_attainable_hashes 230538014
  exact ⟨h5, h6, h7⟩

/-! ### C8: the rotation transform -/

theorem headD_length_of_square {m : List (List ℤ)} (hsq : SquareShape m) :
    (m.headD []).length = m.length := by
  cases m with
  | nil => rfl
  | cons r0 t => exact hsq r0 (List.mem_cons_self r0 t)

theorem rotateMatrix_length {m : List (List ℤ)} (hsq : SquareShape m) :
    (rotateMatrix m).length = m.length := by
  unfold rotateMatrix
  rw [List.length_map, List.length_range]
  exact headD_length_of_square hsq

theorem rotateMatrix_getElem? {m : List (List ℤ)} (hsq : SquareShape m)
    {j : ℕ} (hj : j < m.length) :
    (rotateMatrix m)[j]? = some ((m.map fun row => row.getD j 0).reverse) := by
  unfold rotateMatrix
  rw [List.getElem?_map, headD_length_of_square hsq, List.getElem?_range hj]
  rfl

theorem rotateMatrix_square {m : List (List ℤ)} (hsq : SquareShape m) :
    SquareShape (rotateMatrix m) := by
  intro row hrow
  rw [rotateMatrix_length hsq]
  unfold rotateMatrix at hrow
  obtain ⟨j, _, rfl⟩ := List.mem_map.mp hrow
  simp

theorem getD_map_getD_zero (j : ℕ) :
    ∀ (m : List (List ℤ)) (k : ℕ),
      (m.map fun row => row.getD j 0).getD k 0 = (m.getD k []).getD j 0
  | [], k => by simp
  | r :: t, 0 => rfl
  | r :: t, k + 1 => by
    simpa using getD_map_getD_zero j t k

theorem entryZ_rotateMatrix {m : List (List ℤ)} (hsq : SquareShape m)
    (i j : ℕ) (hi : i < m.length) (hj : j < m.length) :
    entryZ (rotateMatrix m) j i = entryZ m (m.length - 1 - i) j := by
  have hrow : (rotateMatrix m).getD j [] =
      (m.map fun row => row.getD j 0).reverse := by
    rw [List.getD_eq_getD_get?, List.get?_eq_getElem?, rotateMatrix_getElem? hsq hj]
    rfl
  unfold entryZ
  rw [hrow]
  have hmaplen : (m.map fun row => row.getD j 0).length = m.length := by simp
  have hrev :
      ((m.map fun row => row.getD j 0).reverse).getD i 0 =
        (m.map fun row => row.getD j 0).getD (m.length - 1 - i) 0 := by
    rw [List.getD_eq_getD_get?, List.getD_eq_getD_get?, List.get?_eq_getElem?,
      List.get?_eq_getElem?, List.getElem?_reverse (by omega), hmaplen]
  rw [hrev, getD_map_getD_zero]

theorem list_eq_of_getD {a b : List ℤ} (hl : a.length = b.length)
    (h : ∀ j : ℕ, j < a.length → a.getD j 0 = b.getD j 0) : a = b := by
  apply List.ext_get?
  intro n
  by_cases hn : n < a.length
  · have ha : a.get? n = some (a.getD n 0) := by
      rw [List.getD_eq_getD_get?]
      cases hx : a.get? n with
      | none =>
        rw [List.get?_eq_none] at hx
        omega
      | some x => rfl
    have hb : b.get? n = some (b.getD n 0) := by
      rw [List.getD_eq_getD_get?]
      cases hx : b.get? n with
      | none =>
        rw [List.get?_eq_none] at hx
        omega
      | some x => rfl
    rw [ha, hb, h n hn]
  · rw [List.get?_eq_none.mpr (by omega), List.get?_eq_none.mpr (by omega)]

theorem shape_ext {a b : List (List ℤ)} (hl : a.length = b.length)
    (hrl : ∀ i : ℕ, i < a.length → (a.getD i []).length = (b.getD i []).length)
    (he : ∀ i j : ℕ, i < a.length → j < (a.getD i []).length →
      entryZ a i j = entryZ b i j) : a = b := by
  apply List.ext_get?
  intro n
  by_cases hn : n < a.length
  · have ha : a.get? n = some (a.getD n []) := by
      rw [List.getD_eq_getD_get?]
      cases hx : a.get? n with
      | none =>
        rw [List.get?_eq_none] at hx
        omega
      | some x => rfl
    have hb : b.get? n = some (b.getD n []) := by
      rw [List.getD_eq_getD_get?]
      cases hx : b.get? n with
      | none =>
        rw [List.get?_eq_none] at hx
        omega
      | some x => rfl
    rw [ha, hb]
    exact congrArg some
      (list_eq_of_getD (hrl n hn) fun j hj => he n j hn hj)
  · rw [List.get?_eq_none.mpr (by omega), List.get?_eq_none.mpr (by omega)]

theorem row_length_of_square {m : List (List ℤ)} (hsq : SquareShape m)
    {i : ℕ} (hi : i < m.length) : (m.getD i []).length = m.length := by
  refine hsq _ ?_
  rw [List.getD_eq_getElem _ _ hi]
  exact List.getElem_mem hi

/-- C8: the rotation transform maps a shape matrix to the matrix whose row
`j` is the `j`-th column reversed — the transpose with every row reversed,
a 90° clockwise rotation — and on every square shape matrix, in particular
on every entry of the `Tetrominos` catalog, applying it four times returns
the original matrix. -/
theorem rotateMatrix_transpose_and_fourth_power :
    (∀ m : List (List ℤ),
      rotateMatrix m = (transposeSpec m).map List.reverse) ∧
    (∀ m : List (List ℤ), SquareShape m →
      rotateMatrix (rotateMatrix (rotateMatrix (rotateMatrix m))) = m) ∧
    (∀ t ∈ Tetrominos,
      rotateMatrix (rotateMatrix (rotateMatrix (rotateMatrix t))) = t) := by
  have hmain : ∀ m : List (List ℤ), SquareShape m →
      rotateMatrix (rotateMatrix (rotateMatrix (rotateMatrix m))) = m := by
    intro m hsq
    have h1 : SquareShape (rotateMatrix m) := rotateMatrix_square hsq
    have h2 : SquareShape (rotateMatrix (rotateMatrix m)) := rotateMatrix_square h1
    have h3 : SquareShape (rotateMatrix (rotateMatrix (rotateMatrix m))) :=
      rotateMatrix_square h2
    have h4 : SquareShape
        (rotateMatrix (rotateMatrix (rotateMatrix (rotateMatrix m)))) :=
      rotateMatrix_square h3
    have l1 : (rotateMatrix m).length = m.length := rotateMatrix_length hsq
    have l2 : (rotateMatrix (rotateMatrix m)).length = m.length := by
      rw [rotateMatrix_length h1, l1]
    have l3 : (rotateMatrix (rotateMatrix (rotateMatrix m))).length = m.length := by
      rw [rotateMatrix_length h2, l2]
    have l4 : (rotateMatrix (rotateMatrix (rotateMatrix (rotateMatrix m)))).length
        = m.length := by
      rw [rotateMatrix_length h3, l3]
    refine shape_ext l4 ?_ ?_
    · intro i hi
      rw [l4] at hi
      rw [row_length_of_square h4, row_length_of_square hsq hi, l4]
      rw [l4]
      exact hi
    · intro a b ha hb
      rw [l4] at ha
      rw [row_length_of_square h4] at hb
      rw [l4] at hb
      swap
      · rw [l4]
        exact ha
      have ha3 : a < (rotateMatrix (rotateMatrix (rotateMatrix m))).length := by
        rw [l3]
        exact ha
      have hb3 : b < (rotateMatrix (rotateMatrix (rotateMatrix m))).length := by
        rw [l3]
        exact hb
      have e4 := entryZ_rotateMatrix h3 b a hb3 ha3
      rw [l3] at e4
      have ha2 : m.length - 1 - b < (rotateMatrix (rotateMatrix m)).length := by
        rw [l2]
        omega
      have hb2 : a < (rotateMatrix (rotateMatrix m)).length := by
        rw [l2]
        exact ha
      have e3 := entryZ_rotateMatrix h2 a (m.length - 1 - b) hb2 ha2
      rw [l2] at e3
      have ha1 : m.length - 1 - a < (rotateMatrix m).length := by
        rw [l1]
        omega
      have hb1 : m.length - 1 - b < (rotateMatrix m).length := by
        rw [l1]
        omega
      have e2 := entryZ_rotateMatrix h1 (m.length - 1 - b) (m.length - 1 - a) hb1 ha1
      rw [l1] at e2
      have e1 := entryZ_rotateMatrix hsq (m.length - 1 - a) b (by omega) hb
      have arith1 : m.length - 1 - (m.length - 1 - b) = b := by omega
      have arith2 : m.length - 1 - (m.length - 1 - a) = a := by omega
      rw [arith1] at e2
      rw [arith2] at e1
      rw [e4, e3, e2, e1]
  refine ⟨?_, hmain, ?_⟩
  · intro m
    unfold rotateMatrix transposeSpec
    rw [List.map_map]
    rfl
  · intro t ht
    have hsq : SquareShape t := by
      simp only [Tetrominos, List.mem_cons, List.not_mem_nil, or_false] at ht
      rcases ht with rfl | rfl | rfl | rfl | rfl | rfl | rfl <;>
        (intro row hrow; fin_cases hrow <;> rfl)
    exact hmain t hsq

/-- C8 witness: the full rotation property applied to the concrete J shape
from the catalog. -/
theorem rotateMatrix_transpose_and_fourth_power_witness :
    rotateMatrix (rotateMatrix (rotateMatrix (rotateMatrix
      [[(2 : ℤ), 0, 0], [2, 2, 2], [0, 0, 0]]))) =
      [[(2 : ℤ), 0, 0], [2, 2, 2], [0, 0, 0]] :=
  rotateMatrix_transpose_and_fourth_power.2.2
    [[(2 : ℤ), 0, 0], [2, 2, 2], [0, 0, 0]] (by decide)

/-! ### C3: the bounds pass checks a single overhang line -/

theorem jsGet_eq_some_zero_iff (row : List ℤ) (idx : ℤ) (h : 0 ≤ idx) :
    jsGet row idx = some 0 ↔
      idx < (row.length : ℤ) ∧ row.getD idx.toNat 0 = 0 := by
  rw [jsGet, if_pos h]
  constructor
  · intro hsome
    obtain ⟨hlt, hget⟩ := List.get?_eq_some.mp hsome
    refine ⟨by omega, ?_⟩
    rw [List.getD_eq_get _ _ hlt, hget]
  · rintro ⟨hlt, hget⟩
    have hlt' : idx.toNat < row.length := by omega
    rw [List.getD_eq_get _ _ hlt'] at hget
    rw [List.get?_eq_some]
    exact ⟨hlt', hget⟩

/-- C3 counterexample: with the shape `[[5, 0], [0, 0]]` at `col = -2`,
both shape columns 0 and 1 overhang the left edge; column 0 contains the
nonzero cell 5, yet `boundX` permits the position because it only examines
column `-col - 1 = 1`.  The claim's condition — every overhanging column
empty — fails here. -/
theorem boundX_overhang_counterexample :
    csC3.col = -2 ∧ boundX csC3 = csC3 ∧
      ¬ (∀ k : ℕ, k < 2 → ∀ row ∈ csC3.currentTetromino, row.getD k 0 = 0) := by
  refine ⟨rfl, by decide, ?_⟩
  intro hall
  have := hall 0 (by omega) [5, 0] (by decide)
  simp at this

/-- C3 (amended): the bounds pass checks a single overhang line, not the
whole overhang.  `boundX` keeps `col < 0` exactly when shape column
`-col - 1` exists in every row and is all zero, and otherwise clamps to 0;
for a non-negative `col > GRID_WIDTH - rows(shape)` it keeps the position
exactly when the index `GRID_WIDTH - col` is non-negative and that
shape column exists in every row and is all zero, and otherwise clamps to `GRID_WIDTH - rows(shape)`.  `boundY`
applies the same single-line rule to shape row `-row - 1` at the top and
shape row `GRID_HEIGHT - row` at the bottom, failing (a thrown
`TypeError`) when that row index lies outside the shape matrix. -/
theorem bounds_check_single_overhang_line (s : State) :
    (s.col < 0 →
      ((boundX s = s ↔
          ∀ row ∈ s.currentTetromino,
            -s.col - 1 < (row.length : ℤ) ∧ row.getD (-s.col - 1).toNat 0 = 0) ∧
        (boundX s = s ∨ boundX s = { s with col := 0 }))) ∧
    (0 ≤ s.col → s.col > (GRID_WIDTH : ℤ) - s.currentTetromino.length →
      ((boundX s = s ↔
          ∀ row ∈ s.currentTetromino,
            0 ≤ (GRID_WIDTH : ℤ) - s.col ∧
            (GRID_WIDTH : ℤ) - s.col < (row.length : ℤ) ∧
            row.getD ((GRID_WIDTH : ℤ) - s.col).toNat 0 = 0) ∧
        (boundX s = s ∨
          boundX s =
            { s with col := (GRID_WIDTH : ℤ) - s.currentTetromino.length }))) ∧
    (0 ≤ s.col → s.col ≤ (GRID_WIDTH : ℤ) - s.currentTetromino.length →
      boundX s = s) ∧
    (s.row < 0 →
      (((s.currentTetromino.length : ℤ) ≤ -s.row - 1 → boundY s = none) ∧
        ∀ shapeRow, jsGet s.currentTetromino (-s.row - 1) = some shapeRow →
          ((∀ c ∈ shapeRow, c = 0) → boundY s = some s) ∧
          ((∃ c ∈ shapeRow, c ≠ 0) → boundY s = some { s with row := 0 }))) ∧
    (0 ≤ s.row → s.row > (GRID_HEIGHT : ℤ) - s.currentTetromino.length →
      (((GRID_HEIGHT : ℤ) - s.row < 0 → boundY s = none) ∧
        ∀ shapeRow, jsGet s.currentTetromino ((GRID_HEIGHT : ℤ) - s.row) =
            some shapeRow →
          ((∀ c ∈ shapeRow, c = 0) → boundY s = some s) ∧
          ((∃ c ∈ shapeRow, c ≠ 0) →
            boundY s = some
              { s with
                row := (GRID_HEIGHT : ℤ) - s.currentTetromino.length }))) ∧
    (0 ≤ s.row → s.row ≤ (GRID_HEIGHT : ℤ) - s.currentTetromino.length →
      boundY s = some s) := by
  refine ⟨?_, ?_, ?_, ?_, ?_, ?_⟩
  · intro hcol
    have hx : boundX s =
        if s.currentTetromino.all
            (fun row => decide (0 < row.length ∧ jsGet row (-s.col - 1) = some 0))
        then s else { s with col := 0 } := by
      unfold boundX
      rw [if_pos hcol]
    have hcond : (s.currentTetromino.all
        (fun row => decide (0 < row.length ∧ jsGet row (-s.col - 1) = some 0))
          = true) ↔
        ∀ row ∈ s.currentTetromino,
          -s.col - 1 < (row.length : ℤ) ∧ row.getD (-s.col - 1).toNat 0 = 0 := by
      rw [List.all_eq_true]
      constructor
      · intro hall row hrow
        have := hall row hrow
        rw [decide_eq_true_eq] at this
        exact (jsGet_eq_some_zero_iff row _ (by omega)).mp this.2
      · intro hall row hrow
        rw [decide_eq_true_eq]
        obtain ⟨h1, h2⟩ := hall row hrow
        refine ⟨by omega, (jsGet_eq_some_zero_iff row _ (by omega)).mpr ⟨h1, h2⟩⟩
    by_cases hall : s.currentTetromino.all
        (fun row => decide (0 < row.length ∧ jsGet row (-s.col - 1) = some 0)) = true
    · rw [hx, if_pos hall]
      exact ⟨⟨fun _ => hcond.mp hall, fun _ => rfl⟩, Or.inl rfl⟩
    · rw [hx, if_neg hall]
      constructor
      · constructor
        · intro heq
          have : s.col = 0 := congrArg State.col heq.symm
          omega
        · intro hc
          exact absurd (hcond.mpr hc) hall
      · exact Or.inr rfl
  · intro h0 hcol
    have hx : boundX s =
        if s.currentTetromino.all
            (fun row =>
              decide (0 < row.length ∧
                jsGet row ((GRID_WIDTH : ℤ) - s.col) = some 0))
        then s
        else { s with col := (GRID_WIDTH : ℤ) - s.currentTetromino.length } := by
      unfold boundX
      rw [if_neg (by omega), if_pos hcol]
    have hcond : (s.currentTetromino.all
        (fun row =>
          decide (0 < row.length ∧
            jsGet row ((GRID_WIDTH : ℤ) - s.col) = some 0)) = true) ↔
        ∀ row ∈ s.currentTetromino,
          0 ≤ (GRID_WIDTH : ℤ) - s.col ∧
          (GRID_WIDTH : ℤ) - s.col < (row.length : ℤ) ∧
          row.getD ((GRID_WIDTH : ℤ) - s.col).toNat 0 = 0 := by
      rw [List.all_eq_true]
      constructor
      · intro hall row hrow
        have := hall row hrow
        rw [decide_eq_true_eq] at this
        obtain ⟨hpos, hjs⟩ := this
        by_cases hge : 0 ≤ (GRID_WIDTH : ℤ) - s.col
        · obtain ⟨ha, hb⟩ := (jsGet_eq_some_zero_iff row _ hge).mp hjs
          exact ⟨hge, ha, hb⟩
        · rw [jsGet_neg row (by omega)] at hjs
          exact absurd hjs (by simp)
      · intro hall row hrow
        rw [decide_eq_true_eq]
        obtain ⟨hge, h1, h2⟩ := hall row hrow
        refine ⟨by omega, (jsGet_eq_some_zero_iff row _ hge).mpr ⟨h1, h2⟩⟩
    by_cases hall : s.currentTetromino.all
        (fun row =>
          decide (0 < row.length ∧
            jsGet row ((GRID_WIDTH : ℤ) - s.col) = some 0)) = true
    · rw [hx, if_pos hall]
      exact ⟨⟨fun _ => hcond.mp hall, fun _ => rfl⟩, Or.inl rfl⟩
    · rw [hx, if_neg hall]
      constructor
      · constructor
        · intro heq
          have : s.col = (GRID_WIDTH : ℤ) - s.currentTetromino.length :=
            congrArg State.col heq.symm
          omega
        · intro hc
          exact absurd (hcond.mpr hc) hall
      · exact Or.inr rfl
  · intro h0 h1
    unfold boundX
    rw [if_neg (by omega), if_neg (by omega)]
  · intro hrow
    constructor
    · intro hlen
      unfold boundY
      rw [if_pos hrow]
      have hnone : jsGet s.currentTetromino (-s.row - 1) = none := by
        rw [jsGet, if_pos (by omega : (0 : ℤ) ≤ -s.row - 1)]
        rw [List.get?_eq_none]
        omega
      rw [hnone]
    · intro shapeRow hget
      constructor
      · intro hz
        have hcondtrue : (shapeRow.all fun c => decide (c = 0)) = true := by
          rw [List.all_eq_true]
          intro c hc
          rw [decide_eq_true_eq]
          exact hz c hc
        unfold boundY
        rw [if_pos hrow, hget]
        simp [hcondtrue]
      · rintro ⟨c, hc, hc0⟩
        have hcondfalse : (shapeRow.all fun c => decide (c = 0)) = false := by
          rw [List.all_eq_false]
          exact ⟨c, hc, by simp [hc0]⟩
        unfold boundY
        rw [if_pos hrow, hget]
        simp [hcondfalse]
  · intro h0 hrow
    constructor
    · intro hneg
      unfold boundY
      rw [if_neg (by omega), if_pos hrow]
      rw [jsGet_neg _ (by omega)]
    · intro shapeRow hget
      constructor
      · intro hz
        have hcondtrue : (shapeRow.all fun c => decide (c = 0)) = true := by
          rw [List.all_eq_true]
          intro c hc
          rw [decide_eq_true_eq]
          exact hz c hc
        unfold boundY
        rw [if_neg (by omega), if_pos hrow, hget]
        simp [hcondtrue]
      · rintro ⟨c, hc, hc0⟩
        have hcondfalse : (shapeRow.all fun c => decide (c = 0)) = false := by
          rw [List.all_eq_false]
          exact ⟨c, hc, by simp [hc0]⟩
        unfold boundY
        rw [if_neg (by omega), if_pos hrow, hget]
        simp [hcondfalse]
  · intro h0 h1
    unfold boundY
    rw [if_neg (by omega), if_neg (by omega)]

/-- C3 witness: the amended single-line rule evaluated at the
counterexample state — `col = -2` is kept because shape column 1 is all
zero in every row. -/
theorem bounds_check_single_overhang_line_witness :
    boundX csC3 = csC3 :=
  ((bounds_check_single_overhang_line csC3).1 (by decide)).1.mpr (by decide)

/-! ### Step lemmas: every engine step keeps the bookkeeping fields -/

theorem keeps_refl (s : State) : Keeps s s :=
  ⟨rfl, rfl, rfl, fun h => h⟩

theorem keeps_trans {a b c : State} (h1 : Keeps a b) (h2 : Keeps b c) :
    Keeps a c :=
  ⟨h2.1.trans h1.1, h2.2.1.trans h1.2.1, h2.2.2.1.trans h1.2.2.1,
    fun hg => h2.2.2.2 (h1.2.2.2 hg)⟩

theorem boundX_cases (s : State) :
    boundX s = s ∨ boundX s = { s with col := 0 } ∨
      boundX s = { s with col := (GRID_WIDTH : ℤ) - s.currentTetromino.length } := by
  simp only [boundX]
  split_ifs <;> simp

theorem keeps_boundX (s : State) : Keeps s (boundX s) := by
  rcases boundX_cases s with h | h | h <;> rw [h] <;> exact ⟨rfl, rfl, rfl, fun h => h⟩

theorem boundY_cases {s t : State} (h : boundY s = some t) :
    t = s ∨ t = { s with row := 0 } ∨
      t = { s with row := (GRID_HEIGHT : ℤ) - s.currentTetromino.length } := by
  simp only [boundY] at h
  split at h
  · split at h
    · exact absurd h (by simp)
    · split at h
      · exact Or.inl (Option.some.inj h).symm
      · exact Or.inr (Or.inl (Option.some.inj h).symm)
  · split at h
    · split at h
      · exact absurd h (by simp)
      · split at h
        · exact Or.inl (Option.some.inj h).symm
        · exact Or.inr (Or.inr (Option.some.inj h).symm)
    · exact Or.inl (Option.some.inj h).symm

theorem keeps_boundY {s t : State} (h : boundY s = some t) : Keeps s t := by
  rcases boundY_cases h with rfl | rfl | rfl <;> exact ⟨rfl, rfl, rfl, fun h => h⟩

theorem keeps_checkBounds {s t : State} (h : checkBounds s = some t) : Keeps s t :=
  keeps_trans (keeps_boundX s) (keeps_boundY h)

theorem createNewState_some_spec {z : ℤ} {p t : State} :
    createNewState z (some p) = some t ↔
      ∃ next, randomTetromino p.seed = some next ∧
        t = { p with
              col := Int.fdiv ((GRID_WIDTH : ℤ) - p.nextTetromino.length) 2,
              row := findFirstNonEmptyRowIndex p.nextTetromino,
              currentTetromino := p.nextTetromino,
              nextTetromino := next,
              seed := RNG.hash p.seed } := by
  unfold createNewState
  cases hr : randomTetromino p.seed with
  | none => simp [hr]
  | some nx =>
    simp only [hr, Option.bind_eq_bind, Option.some_bind, Option.some.injEq]
    constructor
    · intro hsome
      exact ⟨nx, rfl, hsome.symm⟩
    · rintro ⟨next, hnext, rfl⟩
      subst hnext
      rfl

theorem keeps_tetrominoLanded {s t : State} (h : tetrominoLanded s = some t) :
    Keeps s t := by
  unfold tetrominoLanded at h
  simp only [Option.bind_eq_bind, Option.bind_eq_some] at h
  obtain ⟨g1, _, g2, _, ns, hns, b, _, h⟩ := h
  obtain ⟨next, _, rfl⟩ := createNewState_some_spec.mp hns
  cases b with
  | false =>
    rw [if_neg (by simp)] at h
    obtain rfl := (Option.some.inj h).symm
    exact ⟨rfl, rfl, rfl, fun hg => hg⟩
  | true =>
    rw [if_pos rfl] at h
    obtain rfl := (Option.some.inj h).symm
    exact ⟨rfl, rfl, rfl, fun _ => rfl⟩

theorem keeps_checkStackingOnBlocks {s t : State}
    (h : checkStackingOnBlocks s = some t) : Keeps s t := by
  unfold checkStackingOnBlocks at h
  simp only [Option.bind_eq_bind, Option.bind_eq_some] at h
  obtain ⟨b, _, h⟩ := h
  cases b with
  | false =>
    rw [if_neg (by simp)] at h
    obtain rfl := Option.some.inj h
    exact keeps_refl _
  | true =>
    rw [if_pos rfl] at h
    exact keeps_tetrominoLanded h

theorem keeps_checkSideCollisions {s t : State} {d : Direction}
    (h : checkSideCollisions s d = some t) : Keeps s t := by
  unfold checkSideCollisions at h
  simp only [Option.bind_eq_bind, Option.bind_eq_some] at h
  obtain ⟨b, _, h⟩ := h
  cases b with
  | true =>
    rw [if_pos rfl] at h
    obtain rfl := Option.some.inj h
    exact keeps_refl _
  | false =>
    rw [if_neg (by simp)] at h
    refine keeps_trans ?_ (keeps_checkStackingOnBlocks h)
    exact ⟨rfl, rfl, rfl, fun hg => hg⟩

theorem keeps_checkCollisions {s t : State} {d : Option Direction}
    (h : checkCollisions s d = some t) : Keeps s t := by
  cases d with
  | some dir =>
    rw [show checkCollisions s (some dir) = checkSideCollisions s dir from rfl] at h
    exact keeps_checkSideCollisions h
  | none =>
    rw [show checkCollisions s none =
        (if isOnGround s then tetrominoLanded s else checkStackingOnBlocks s)
        from rfl] at h
    split at h
    · exact keeps_tetrominoLanded h
    · exact keeps_checkStackingOnBlocks h

theorem keeps_rotate {s t : State} (h : rotate s = some t) : Keeps s t := by
  unfold rotate at h
  split at h
  · exact absurd h (by simp)
  · simp only [Option.bind_eq_bind, Option.bind_eq_some] at h
    obtain ⟨ns, hns, b, _, h⟩ := h
    cases b with
    | true =>
      rw [if_pos rfl] at h
      obtain rfl := Option.some.inj h
      exact keeps_refl _
    | false =>
      rw [if_neg (by simp)] at h
      have k1 : Keeps s ns := by
        refine keeps_trans ?_ (keeps_checkBounds hns)
        exact ⟨rfl, rfl, rfl, fun hg => hg⟩
      exact keeps_trans k1 (keeps_checkCollisions h)

theorem keeps_tick {s t : State} (h : tick s = some t) : Keeps s t := by
  unfold tick at h
  rw [Option.bind_eq_some] at h
  obtain ⟨m, hm, h⟩ := h
  have k1 : Keeps s m := by
    refine keeps_trans ?_ (keeps_checkCollisions hm)
    exact ⟨rfl, rfl, rfl, fun hg => hg⟩
  exact keeps_trans k1 (keeps_checkBounds h)

theorem keeps_move {s t : State} {d : Direction} (h : move s d = some t) :
    Keeps s t := by
  cases d with
  | left =>
    rw [show move s Direction.left =
        (checkCollisions s (some Direction.left)).bind checkBounds from rfl] at h
    rw [Option.bind_eq_some] at h
    obtain ⟨m, hm, h⟩ := h
    exact keeps_trans (keeps_checkCollisions hm) (keeps_checkBounds h)
  | right =>
    rw [show move s Direction.right =
        (checkCollisions s (some Direction.right)).bind checkBounds from rfl] at h
    rw [Option.bind_eq_some] at h
    obtain ⟨m, hm, h⟩ := h
    exact keeps_trans (keeps_checkCollisions hm) (keeps_checkBounds h)
  | down =>
    rw [show move s Direction.down =
        (checkCollisions { s with row := s.row + 1 } none).bind checkBounds
        from rfl] at h
    rw [Option.bind_eq_some] at h
    obtain ⟨m, hm, h⟩ := h
    have k1 : Keeps s m := by
      refine keeps_trans ?_ (keeps_checkCollisions hm)
      exact ⟨rfl, rfl, rfl, fun hg => hg⟩
    exact keeps_trans k1 (keeps_checkBounds h)
  | up =>
    rw [show move s Direction.up = (rotate s).bind checkBounds from rfl] at h
    rw [Option.bind_eq_some] at h
    obtain ⟨m, hm, h⟩ := h
    exact keeps_trans (keeps_rotate hm) (keeps_checkBounds h)

theorem keeps_processEvent {s t : State} {e : GameEvent}
    (h : processEvent e s = some t) : Keeps s t := by
  cases e with
  | tick =>
    rw [show processEvent GameEvent.tick s = tick s from rfl] at h
    exact keeps_tick h
  | input d =>
    rw [show processEvent (GameEvent.input d) s = move s d from rfl] at h
    exact keeps_move h

/-! ### C5: monotonicity of score, level, linesCleared -/

/-- C5 counterexample: clearing a row with the counter at 9 resets
`linesCleared` from 9 to 0 — a strict decrease, so the counter is not
monotonically non-decreasing under `updateScore`. -/
theorem linesCleared_decreases_counterexample :
    csC1.linesCleared = 9 ∧ (updateScore csC1).linesCleared = 0 ∧
      ¬ csC1.linesCleared ≤ (updateScore csC1).linesCleared := by
  refine ⟨rfl, ?_, ?_⟩ <;> decide

/-- C5 (amended): `processEvent` carries `score`, `level` and
`linesCleared` over unchanged on every transition; `updateScore` never
decreases `score` or `level`, and never decreases `linesCleared` either —
except for the reset to 0 on the clear that would make it 10, which comes
with `level` increasing by 1. -/
theorem score_level_monotone :
    (∀ (e : GameEvent) (s s' : State), processEvent e s = some s' →
      s'.score = s.score ∧ s'.level = s.level ∧
        s'.linesCleared = s.linesCleared) ∧
    (∀ s : State,
      s.score ≤ (updateScore s).score ∧ s.level ≤ (updateScore s).level ∧
        (s.linesCleared ≤ (updateScore s).linesCleared ∨
          ((updateScore s).linesCleared = 0 ∧ s.linesCleared + 1 = 10 ∧
            (updateScore s).level = s.level + 1))) := by
  constructor
  · intro e s s' h
    obtain ⟨h1, h2, h3, _⟩ := keeps_processEvent h
    exact ⟨h1, h2, h3⟩
  · intro s
    by_cases hidx : jsFindIndex
        (fun row => row.all fun block => decide (block ≠ 0)) s.grid > -1
    · by_cases hten : s.linesCleared + 1 = 10
      · simp only [updateScore, if_pos hidx, if_pos hten]
        refine ⟨by omega, by omega, Or.inr ⟨?_, hten, ?_⟩⟩ <;> trivial
      · simp only [updateScore, if_pos hidx, if_neg hten]
        exact ⟨by omega, by omega, Or.inl (by omega)⟩
    · simp only [updateScore, if_neg hidx]
      exact ⟨le_refl _, le_refl _, Or.inl (le_refl _)⟩

/-- C5 witness: the `processEvent` part of the amended claim applied to a
concrete tick that moves the piece one row down. -/
theorem score_level_monotone_witness :
    processEvent GameEvent.tick csC6 = some { csC6 with row := 1 } ∧
      ({ csC6 with row := 1 } : State).score = csC6.score :=
  ⟨by decide,
    (score_level_monotone.1 GameEvent.tick csC6 { csC6 with row := 1 }
      (by decide)).1⟩

/-! ### C6: gameEnd persistence -/

/-- C6 counterexample: a state with `gameEnd = true` is not passed through
unchanged — a tick still advances the falling piece's row, so `processEvent`
performs a further gameplay transition on an ended game. -/
theorem gameEnd_state_still_ticks_counterexample :
    csC6.gameEnd = true ∧
      processEvent GameEvent.tick csC6 = some { csC6 with row := 1 } ∧
      ({ csC6 with row := 1 } : State) ≠ csC6 := by
  refine ⟨rfl, by decide, by decide⟩

/-- C6 (amended): the `gameEnd` flag is persistent — no transition of the
engine (`processEvent`, `updateScore`, `tetrominoLanded`'s sequencer call
`createNewState` on a previous state) ever clears it, and only the full
reset `createNewState(null)` produces a state with `gameEnd = false`;
`processEvent` does not, however, freeze an ended state: gameplay
transitions continue and halting is the host's responsibility. -/
theorem gameEnd_persistent :
    (∀ (e : GameEvent) (s s' : State), s.gameEnd = true →
      processEvent e s = some s' → s'.gameEnd = true) ∧
    (∀ s : State, (updateScore s).gameEnd = s.gameEnd) ∧
    (∀ (z : ℤ) (p t : State), p.gameEnd = true →
      createNewState z (some p) = some t → t.gameEnd = true) ∧
    (∀ (z : ℤ) (t : State), createNewState z none = some t →
      t.gameEnd = false) := by
  refine ⟨?_, ?_, ?_, ?_⟩
  · intro e s s' hg h
    exact (keeps_processEvent h).2.2.2 hg
  · intro s
    by_cases hidx : jsFindIndex
        (fun row => row.all fun block => decide (block ≠ 0)) s.grid > -1
    · simp only [updateScore, if_pos hidx]
    · simp only [updateScore, if_neg hidx]
  · intro z p t hg h
    obtain ⟨next, _, rfl⟩ := createNewState_some_spec.mp h
    exact hg
  · intro z t h
    unfold createNewState at h
    simp only [Option.bind_eq_bind, Option.bind_eq_some] at h
    obtain ⟨t1, _, t2, _, h⟩ := h
    obtain rfl := Option.some.inj h
    rfl

/-- C6 witness: gameEnd persistence across the concrete tick on `csC6`. -/
theorem gameEnd_persistent_witness :
    ({ csC6 with row := 1 } : State).gameEnd = true :=
  gameEnd_persistent.1 GameEvent.tick csC6 { csC6 with row := 1 } rfl (by decide)

/-! ### C9: on the ground, the collision probes are all switched off -/

theorem someIdxM_eq_false {α : Type _} :
    ∀ (l : List α) (f : ℕ → α → Option Bool),
      (∀ (k : ℕ) (a : α), l.get? k = some a → f k a = some false) →
      someIdxM l f = some false
  | [], _, _ => rfl
  | a :: rest, f, h => by
    have h0 : f 0 a = some false := h 0 a rfl
    simp only [someIdxM, h0]
    exact someIdxM_eq_false rest (fun k b => f (k + 1) b)
      (fun k b hk => h (k + 1) b (by simpa using hk))

theorem lastIdxAux_ge : ∀ l : List (List ℤ), -1 ≤ lastIdxAux l
  | [] => le_refl _
  | row :: rest => by
    have ih := lastIdxAux_ge rest
    simp only [lastIdxAux]
    split_ifs <;> omega

theorem lastIdxAux_lt_length : ∀ l : List (List ℤ), lastIdxAux l < (l.length : ℤ)
  | [] => by simp [lastIdxAux]
  | row :: rest => by
    have ih := lastIdxAux_lt_length rest
    simp only [lastIdxAux, List.length_cons]
    split_ifs <;> push_cast <;> omega

theorem rows_after_last_all_zero :
    ∀ (l : List (List ℤ)) (i : ℕ), lastIdxAux l < (i : ℤ) → i < l.length →
      ∀ c ∈ l.getD i [], c = 0
  | [], i, _, hi => absurd hi (by simp)
  | row :: rest, i, hlt, hi => by
    have hge := lastIdxAux_ge rest
    simp only [lastIdxAux] at hlt
    cases i with
    | zero =>
      intro c hc
      split_ifs at hlt with h1 h2
      · exact absurd hlt (by omega)
      · have hanyf : (row.any fun block => decide (block ≠ 0)) = false := by
          simpa using h2
        rw [List.any_eq_false] at hanyf
        have := hanyf c (by simpa using hc)
        simpa using this
      · exact absurd hlt (by omega)
    | succ n =>
      have hrec : lastIdxAux rest < (n : ℤ) := by
        split_ifs at hlt with h1 h2 <;> omega
      have hlen : n < rest.length := by simpa using hi
      intro c hc
      exact rows_after_last_all_zero rest n hrec hlen c (by simpa using hc)

theorem isCollidingAtCell_of_onGround {s : State} (hog : isOnGround s = true)
    (i j : ℕ) (dr dc : ℤ) (hi : i < s.currentTetromino.length) :
    isCollidingAtCell s i j dr dc = some false := by
  obtain ⟨row, hrow⟩ : ∃ row, s.currentTetromino[i]? = some row :=
    ⟨_, List.getElem?_eq_getElem hi⟩
  simp [isCollidingAtCell, hrow, hog]

theorem isSideColliding_of_onGround {s : State} (hog : isOnGround s = true)
    (dc : ℤ) : isSideColliding s dc = some false := by
  unfold isSideColliding
  refine someIdxM_eq_false _ _ ?_
  intro k row hk
  refine someIdxM_eq_false _ _ ?_
  intro k2 _ _
  have hklen : k < s.currentTetromino.length := by
    rw [List.get?_eq_getElem?] at hk
    exact (List.getElem?_eq_some.mp hk).1
  exact isCollidingAtCell_of_onGround hog k k2 0 dc hklen

theorem isStackingOnBlocks_of_onGround {s : State} (hog : isOnGround s = true) :
    isStackingOnBlocks s = some false := by
  unfold isStackingOnBlocks
  refine someIdxM_eq_false _ _ ?_
  intro k row hk
  refine someIdxM_eq_false _ _ ?_
  intro k2 _ _
  have hklen : k < s.currentTetromino.length := by
    rw [List.get?_eq_getElem?] at hk
    exact (List.getElem?_eq_some.mp hk).1
  exact isCollidingAtCell_of_onGround hog k k2 1 0 hklen

theorem boundX_row_shape (s : State) :
    (boundX s).row = s.row ∧ (boundX s).currentTetromino = s.currentTetromino ∧
      (boundX s).gameEnd = s.gameEnd := by
  rcases boundX_cases s with h | h | h <;> rw [h] <;> exact ⟨rfl, rfl, rfl⟩

theorem boundY_of_onGround {s : State}
    (hog : s.row + lastIdxAux s.currentTetromino = (GRID_HEIGHT : ℤ) - 1)
    (h0 : 0 ≤ s.row) : boundY s = some s := by
  have hg20 : (GRID_HEIGHT : ℤ) = 20 := by norm_num [GRID_HEIGHT]
  have hlen := lastIdxAux_lt_length s.currentTetromino
  have hge := lastIdxAux_ge s.currentTetromino
  by_cases hbr : s.row > (GRID_HEIGHT : ℤ) - s.currentTetromino.length
  · have hk0 : 0 ≤ (GRID_HEIGHT : ℤ) - s.row := by omega
    have hkn : ((GRID_HEIGHT : ℤ) - s.row).toNat < s.currentTetromino.length := by
      omega
    obtain ⟨r, hr⟩ : ∃ r,
        s.currentTetromino.get? ((GRID_HEIGHT : ℤ) - s.row).toNat = some r := by
      rw [List.get?_eq_getElem?]
      exact ⟨_, List.getElem?_eq_getElem hkn⟩
    have hgetD :
        s.currentTetromino.getD ((GRID_HEIGHT : ℤ) - s.row).toNat [] = r := by
      rw [List.getD_eq_getD_get?, hr]
      rfl
    have hall : ∀ c ∈ r, c = 0 := by
      have hz := rows_after_last_all_zero s.currentTetromino
        ((GRID_HEIGHT : ℤ) - s.row).toNat (by omega) hkn
      intro c hc
      refine hz c ?_
      rw [hgetD]
      exact hc
    have hjs : jsGet s.currentTetromino ((GRID_HEIGHT : ℤ) - s.row) = some r := by
      rw [jsGet, if_pos hk0]
      exact hr
    have hballz : (r.all fun c => decide (c = 0)) = true := by
      rw [List.all_eq_true]
      intro c hc
      rw [decide_eq_true_eq]
      exact hall c hc
    simp only [boundY]
    rw [if_neg (by omega : ¬ s.row < 0), if_pos hbr, hjs]
    simp [hballz]
  · simp only [boundY]
    rw [if_neg (by omega : ¬ s.row < 0), if_neg hbr]

/-- C9: when the falling piece is on the ground (`row` plus the index of
the shape's last non-empty row equals `GRID_HEIGHT - 1`),
`isCollidingAtCell` returns `false` for every shape cell and every delta,
so a left or right input never detects a side collision or a stacking
condition: the anchor column always shifts by one in the requested
direction, subject only to the wall clamp of `boundX`, even when the
destination grid cells are occupied by landed blocks. -/
theorem onGround_side_moves_ignore_collisions (s : State)
    (hog : s.row + findLastNonEmptyRowIdx s = (GRID_HEIGHT : ℤ) - 1)
    (h0 : 0 ≤ s.row) :
    (∀ (i j : ℕ) (dr dc : ℤ), i < s.currentTetromino.length →
      isCollidingAtCell s i j dr dc = some false) ∧
    processEvent (GameEvent.input Direction.left) s =
      some (boundX { s with col := s.col + -1 }) ∧
    processEvent (GameEvent.input Direction.right) s =
      some (boundX { s with col := s.col + 1 }) := by
  have hogb : isOnGround s = true := by
    simp only [isOnGround, decide_eq_true_eq]
    exact hog
  have hboundsL : checkBounds { s with col := s.col + -1 } =
      some (boundX { s with col := s.col + -1 }) := by
    unfold checkBounds
    refine boundY_of_onGround ?_ ?_
    · rw [(boundX_row_shape _).1, (boundX_row_shape _).2.1]
      exact hog
    · rw [(boundX_row_shape _).1]
      exact h0
  have hboundsR : checkBounds { s with col := s.col + 1 } =
      some (boundX { s with col := s.col + 1 }) := by
    unfold checkBounds
    refine boundY_of_onGround ?_ ?_
    · rw [(boundX_row_shape _).1, (boundX_row_shape _).2.1]
      exact hog
    · rw [(boundX_row_shape _).1]
      exact h0
  refine ⟨fun i j dr dc hi => isCollidingAtCell_of_onGround hogb i j dr dc hi,
    ?_, ?_⟩
  · have h1 : checkSideCollisions s Direction.left =
        checkStackingOnBlocks { s with col := s.col + -1 } := by
      simp only [checkSideCollisions, Option.bind_eq_bind,
        isSideColliding_of_onGround hogb, Option.some_bind]
      simp
    have h2 : checkStackingOnBlocks { s with col := s.col + -1 } =
        some { s with col := s.col + -1 } := by
      have hogb1 : isOnGround { s with col := s.col + -1 } = true := hogb
      simp only [checkStackingOnBlocks, Option.bind_eq_bind,
        isStackingOnBlocks_of_onGround hogb1, Option.some_bind]
      simp
    calc processEvent (GameEvent.input Direction.left) s
        = (checkSideCollisions s Direction.left).bind checkBounds := rfl
      _ = (some { s with col := s.col + -1 }).bind checkBounds := by rw [h1, h2]
      _ = checkBounds { s with col := s.col + -1 } := rfl
      _ = some (boundX { s with col := s.col + -1 }) := hboundsL
  · have h1 : checkSideCollisions s Direction.right =
        checkStackingOnBlocks { s with col := s.col + 1 } := by
      simp only [checkSideCollisions, Option.bind_eq_bind,
        isSideColliding_of_onGround hogb, Option.some_bind]
      simp
    have h2 : checkStackingOnBlocks { s with col := s.col + 1 } =
        some { s with col := s.col + 1 } := by
      have hogb1 : isOnGround { s with col := s.col + 1 } = true := hogb
      simp only [checkStackingOnBlocks, Option.bind_eq_bind,
        isStackingOnBlocks_of_onGround hogb1, Option.some_bind]
      simp
    calc processEvent (GameEvent.input Direction.right) s
        = (checkSideCollisions s Direction.right).bind checkBounds := rfl
      _ = (some { s with col := s.col + 1 }).bind checkBounds := by rw [h1, h2]
      _ = checkBounds { s with col := s.col + 1 } := rfl
      _ = some (boundX { s with col := s.col + 1 }) := hboundsR

/-- C9 witness: a J piece resting on the floor beside landed blocks still
shifts left into them on a left input. -/
theorem onGround_side_moves_ignore_collisions_witness :
    processEvent (GameEvent.input Direction.left) csC9 =
      some (boundX { csC9 with col := csC9.col + -1 }) :=
  (onGround_side_moves_ignore_collisions csC9 (by decide) (by decide)).2.1

/-! ### C10: determinism and seed-determined piece order -/

/-- C10: the engine is deterministic — a run is a pure fold of
`processEvent` over the event list, so any two traces of the same event
sequence from the same initial state are identical — and the piece order
is reproducible from the sequencer state alone: the `current`/`next`/`seed`
triple produced by `createNewState` on a previous state depends only on
that state's `seed` and `nextTetromino` (never on the grid, score, or the
fresh-game seed argument). -/
theorem engine_deterministic_and_seeded :
    (∀ (s0 : State) (es : List GameEvent) (tr1 tr2 : List State),
      IsTrace s0 es tr1 → IsTrace s0 es tr2 → tr1 = tr2) ∧
    (∀ (z1 z2 : ℤ) (s1 s2 : State), s1.seed = s2.seed →
      s1.nextTetromino = s2.nextTetromino →
      (createNewState z1 (some s1)).map
          (fun t => (t.currentTetromino, t.nextTetromino, t.seed)) =
        (createNewState z2 (some s2)).map
          (fun t => (t.currentTetromino, t.nextTetromino, t.seed))) := by
  constructor
  · intro s0 es tr1 tr2 h1 h2
    induction h1 generalizing tr2 with
    | nil _ =>
      cases h2
      rfl
    | cons hstep htail ih =>
      cases h2 with
      | cons hstep2 htail2 =>
        have heq := Option.some.inj (hstep.symm.trans hstep2)
        subst heq
        rw [ih _ htail2]
  · intro z1 z2 s1 s2 hseed hnext
    cases hr : randomTetromino s2.seed with
    | none =>
      cases hc1 : createNewState z1 (some s1) with
      | some t =>
        obtain ⟨next, hn, _⟩ := createNewState_some_spec.mp hc1
        rw [hseed, hr] at hn
        exact absurd hn (by simp)
      | none =>
        cases hc2 : createNewState z2 (some s2) with
        | some t =>
          obtain ⟨next, hn, _⟩ := createNewState_some_spec.mp hc2
          rw [hr] at hn
          exact absurd hn (by simp)
        | none => rfl
    | some nx =>
      have h1 : createNewState z1 (some s1) =
          some { s1 with
                  col := Int.fdiv ((GRID_WIDTH : ℤ) - s1.nextTetromino.length) 2,
                  row := findFirstNonEmptyRowIndex s1.nextTetromino,
                  currentTetromino := s1.nextTetromino,
                  nextTetromino := nx,
                  seed := RNG.hash s1.seed } :=
        createNewState_some_spec.mpr ⟨nx, by rw [hseed]; exact hr, rfl⟩
      have h2 : createNewState z2 (some s2) =
          some { s2 with
                  col := Int.fdiv ((GRID_WIDTH : ℤ) - s2.nextTetromino.length) 2,
                  row := findFirstNonEmptyRowIndex s2.nextTetromino,
                  currentTetromino := s2.nextTetromino,
                  nextTetromino := nx,
                  seed := RNG.hash s2.seed } :=
        createNewState_some_spec.mpr ⟨nx, hr, rfl⟩
      rw [h1, h2]
      simp [hseed, hnext]

/-- C10 witness: the sequencer triple after a landing agrees between two
states that share only `seed` and `nextTetromino`, regardless of the
fresh-game seed argument and of their grids and scores. -/
theorem engine_deterministic_and_seeded_witness :
    (createNewState 0 (some csC2w)).map
        (fun t => (t.currentTetromino, t.nextTetromino, t.seed)) =
      (createNewState 12345 (some { csC2w with score := 99 })).map
        (fun t => (t.currentTetromino, t.nextTetromino, t.seed)) :=
  engine_deterministic_and_seeded.2 0 12345 csC2w { csC2w with score := 99 }
    rfl rfl

/-! ### C2: committing a landed piece into the grid -/

theorem readCell_valid {g : Grid} {i c : ℕ} (hi : i < g.length)
    (hc : c < (g.getD i []).length) :
    readCell g (i : ℤ) (c : ℤ) = some ((g.getD i []).getD c 0) := by
  obtain ⟨row, hrow⟩ : ∃ row, g.get? i = some row := by
    rw [List.get?_eq_getElem?]
    exact ⟨_, List.getElem?_eq_getElem hi⟩
  have hrowD : g.getD i [] = row := by
    rw [List.getD_eq_getD_get?, hrow]
    rfl
  rw [hrowD] at hc
  obtain ⟨v, hv⟩ : ∃ v, row.get? c = some v := by
    rw [List.get?_eq_getElem?]
    exact ⟨_, List.getElem?_eq_getElem hc⟩
  have hvD : row.getD c 0 = v := by
    rw [List.getD_eq_getD_get?, hv]
    rfl
  have hj1 : jsGet g (i : ℤ) = some row := by
    rw [jsGet, if_pos (by positivity)]
    simpa using hrow
  have hj2 : jsGet row (c : ℤ) = some v := by
    rw [jsGet, if_pos (by positivity)]
    simpa using hv
  simp only [readCell, Option.bind_eq_bind, hj1, Option.some_bind, hj2, hrowD,
    hvD]

theorem readCell_isSome_of_bounds {g : Grid} {r c : ℤ} (hr0 : 0 ≤ r)
    (hr : r < (g.length : ℤ)) (hc0 : 0 ≤ c)
    (hc : c < ((g.getD r.toNat []).length : ℤ)) :
    readCell g r c = some ((g.getD r.toNat []).getD c.toNat 0) := by
  have h1 : r = ((r.toNat : ℕ) : ℤ) := by omega
  have h2 : c = ((c.toNat : ℕ) : ℤ) := by omega
  rw [h1, h2]
  exact readCell_valid (by omega) (by omega)

theorem setCell_eq_some_of_bounds {g : Grid} {r c v : ℤ} (hr0 : 0 ≤ r)
    (hr : r < (g.length : ℤ)) (hc0 : 0 ≤ c)
    (hc : c < ((g.getD r.toNat []).length : ℤ)) :
    setCell g r c v =
      some (g.set r.toNat ((g.getD r.toNat []).set c.toNat v)) := by
  have h1 : jsGet g r = some (g.getD r.toNat []) := by
    rw [jsGet, if_pos hr0]
    rw [List.getD_eq_getD_get?]
    cases hx : g.get? r.toNat with
    | none =>
      rw [List.get?_eq_none] at hx
      omega
    | some x => rfl
  simp only [setCell, h1]
  rw [if_pos ⟨hc0, hc⟩]

theorem setCell_spec {g g' : Grid} {r c v : ℤ} (h : setCell g r c v = some g') :
    g'.length = g.length ∧
    (∀ n : ℕ, (g'.getD n []).length = (g.getD n []).length) ∧
    readCell g' r c = some v ∧
    (∀ r' c' : ℤ, ¬ (r' = r ∧ c' = c) → readCell g' r' c' = readCell g r' c') ∧
    0 ≤ r ∧ r < (g.length : ℤ) ∧ 0 ≤ c ∧
      c < ((g.getD r.toNat []).length : ℤ) := by
  cases hjs : jsGet g r with
  | none => simp [setCell, hjs] at h
  | some row =>
    simp only [setCell, hjs] at h
    split_ifs at h with hb
    have hr0 : 0 ≤ r := by
      by_contra hneg
      rw [jsGet_neg _ (by omega)] at hjs
      exact absurd hjs (by simp)
    have hrn : r.toNat < g.length := by
      rw [jsGet, if_pos hr0] at hjs
      have := List.get?_eq_some.mp hjs
      exact this.1
    have hrowD : g.getD r.toNat [] = row := by
      rw [jsGet, if_pos hr0] at hjs
      rw [List.getD_eq_getD_get?, hjs]
      rfl
    obtain rfl := (Option.some.inj h).symm
    refine ⟨List.length_set _ _ _, ?_, ?_, ?_, hr0, by omega, hb.1,
      by rw [hrowD]; exact hb.2⟩
    · intro n
      have hrowE : g[r.toNat]? = some row := by
        rw [← List.get?_eq_getElem?]
        rw [jsGet, if_pos hr0] at hjs
        exact hjs
      by_cases hn : n = r.toNat
      · subst hn
        rw [List.getD_eq_getD_get?, List.getD_eq_getD_get?]
        rw [List.get?_eq_getElem?, List.get?_eq_getElem?, List.getElem?_set]
        rw [if_pos rfl, if_pos hrn]
        simp [hrowE]
      · rw [List.getD_eq_getD_get?, List.getD_eq_getD_get?]
        rw [List.get?_eq_getElem?, List.get?_eq_getElem?, List.getElem?_set]
        rw [if_neg (by omega)]
    · have hcn : c.toNat < row.length := by omega
      have h1 : jsGet (g.set r.toNat (row.set c.toNat v)) r =
          some (row.set c.toNat v) := by
        rw [jsGet, if_pos hr0, List.get?_eq_getElem?, List.getElem?_set,
          if_pos rfl, if_pos hrn]
      have h2 : jsGet (row.set c.toNat v) c = some v := by
        rw [jsGet, if_pos hb.1, List.get?_eq_getElem?, List.getElem?_set,
          if_pos rfl, if_pos hcn]
      simp only [readCell, Option.bind_eq_bind, h1, Option.some_bind, h2]
    · intro r' c' hne
      by_cases hr' : r' = r
      · subst hr'
        have hc' : ¬ c' = c := fun hcc => hne ⟨rfl, hcc⟩
        have h1 : jsGet (g.set r'.toNat (row.set c.toNat v)) r' =
            some (row.set c.toNat v) := by
          rw [jsGet, if_pos hr0, List.get?_eq_getElem?, List.getElem?_set,
            if_pos rfl, if_pos hrn]
        by_cases hc0' : 0 ≤ c'
        · have h2 : jsGet (row.set c.toNat v) c' = jsGet row c' := by
            rw [jsGet, jsGet, if_pos hc0', if_pos hc0']
            rw [List.get?_eq_getElem?, List.get?_eq_getElem?, List.getElem?_set]
            rw [if_neg (by omega)]
          simp only [readCell, Option.bind_eq_bind, h1, hjs, Option.some_bind,
            h2]
        · have h2 : jsGet (row.set c.toNat v) c' = jsGet row c' := by
            rw [jsGet_neg _ (by omega), jsGet_neg _ (by omega)]
          simp only [readCell, Option.bind_eq_bind, h1, hjs, Option.some_bind,
            h2]
      · by_cases hr0' : 0 ≤ r'
        · have h1 : jsGet (g.set r.toNat (row.set c.toNat v)) r' = jsGet g r' := by
            rw [jsGet, jsGet, if_pos hr0', if_pos hr0']
            rw [List.get?_eq_getElem?, List.get?_eq_getElem?, List.getElem?_set]
            rw [if_neg (by omega)]
          simp only [readCell, Option.bind_eq_bind, h1]
        · have h1 : jsGet (g.set r.toNat (row.set c.toNat v)) r' = none :=
            jsGet_neg _ (by omega)
          have h2 : jsGet g r' = none := jsGet_neg _ (by omega)
          simp only [readCell, Option.bind_eq_bind, h1, h2]

theorem writeRowFrom_spec :
    ∀ (row : List ℤ) (g : Grid) (i j : ℕ),
      (i : ℤ) < (g.length : ℤ) →
      (j : ℤ) + row.length ≤ ((g.getD i []).length : ℤ) →
      ∃ g', writeRowFrom g i j row = some g' ∧
        g'.length = g.length ∧
        (∀ n : ℕ, (g'.getD n []).length = (g.getD n []).length) ∧
        (∀ r' c' : ℤ,
          (r' ≠ (i : ℤ) ∨ c' < (j : ℤ) ∨ (j : ℤ) + row.length ≤ c') →
          readCell g' r' c' = readCell g r' c') ∧
        (∀ k : ℕ, k < row.length →
          readCell g' (i : ℤ) ((j : ℤ) + k) = some (row.getD k 0))
  | [], g, i, j, _, _ =>
    ⟨g, rfl, rfl, fun _ => rfl, fun _ _ _ => rfl, by simp⟩
  | v :: rest, g, i, j, hi, hlen => by
    have hlenc : ((v :: rest).length : ℤ) = rest.length + 1 := by
      simp only [List.length_cons]
      push_cast
      ring
    have hlen' : (j : ℤ) < ((g.getD i []).length : ℤ) := by
      rw [hlenc] at hlen
      have h0 : (0 : ℤ) ≤ rest.length := by positivity
      omega
    have htn : ((i : ℤ).toNat) = i := Int.toNat_natCast i
    obtain ⟨g1, hset⟩ : ∃ g1, setCell g (i : ℤ) (j : ℤ) v = some g1 :=
      ⟨_, setCell_eq_some_of_bounds (by positivity) hi (by positivity)
        (by rw [htn]; simpa using hlen')⟩
    obtain ⟨hl1, hrl1, hread1, hunch1, _⟩ := setCell_spec hset
    obtain ⟨g2, hw2, hl2, hrl2, hunch2, hwrite2⟩ :=
      writeRowFrom_spec rest g1 i (j + 1) (by rw [hl1]; exact hi)
        (by rw [hrl1 i]; rw [hlenc] at hlen; push_cast; omega)
    refine ⟨g2, ?_, by rw [hl2, hl1], fun n => by rw [hrl2 n, hrl1 n], ?_, ?_⟩
    · show writeRowFrom g i j (v :: rest) = some g2
      simp only [writeRowFrom, Option.bind_eq_bind, hset, Option.some_bind]
      exact hw2
    · intro r' c' hcond
      have hcond2 : r' ≠ (i : ℤ) ∨ c' < ((j + 1 : ℕ) : ℤ) ∨
          ((j + 1 : ℕ) : ℤ) + rest.length ≤ c' := by
        rcases hcond with h | h | h
        · exact Or.inl h
        · exact Or.inr (Or.inl (by push_cast; omega))
        · rw [hlenc] at h
          exact Or.inr (Or.inr (by push_cast; omega))
      rw [hunch2 r' c' hcond2]
      refine hunch1 r' c' ?_
      rintro ⟨rfl, rfl⟩
      rcases hcond with h | h | h
      · exact h rfl
      · omega
      · rw [hlenc] at h
        have h0 : (0 : ℤ) ≤ rest.length := by positivity
        omega
    · intro k hk
      cases k with
      | zero =>
        simp only [Nat.cast_zero]
        have hu : readCell g2 (i : ℤ) ((j : ℤ) + 0) =
            readCell g1 (i : ℤ) ((j : ℤ) + 0) := by
          refine hunch2 _ _ (Or.inr (Or.inl ?_))
          push_cast
          omega
        rw [hu]
        simpa using hread1
      | succ k' =>
        have harith : (j : ℤ) + ((k' + 1 : ℕ) : ℤ) = ((j + 1 : ℕ) : ℤ) + k' := by
          push_cast
          ring
        rw [harith]
        have := hwrite2 k' (by simpa using hk)
        simpa using this

theorem copyRowsFrom_spec :
    ∀ (rows : List (List ℤ)) (g : Grid) (i : ℕ),
      (i : ℤ) + rows.length ≤ (g.length : ℤ) →
      (∀ k : ℕ, k < rows.length →
        ((rows.getD k []).length : ℤ) ≤ ((g.getD (i + k) []).length : ℤ)) →
      ∃ g', copyRowsFrom g i rows = some g' ∧
        g'.length = g.length ∧
        (∀ n : ℕ, (g'.getD n []).length = (g.getD n []).length) ∧
        (∀ r' c' : ℤ, (r' < (i : ℤ) ∨ (i : ℤ) + rows.length ≤ r') →
          readCell g' r' c' = readCell g r' c') ∧
        (∀ k : ℕ, k < rows.length → ∀ c : ℕ, c < (rows.getD k []).length →
          readCell g' ((i : ℤ) + k) (c : ℤ) =
            some ((rows.getD k []).getD c 0)) ∧
        (∀ k : ℕ, k < rows.length → ∀ c' : ℤ,
          ((rows.getD k []).length : ℤ) ≤ c' →
          readCell g' ((i : ℤ) + k) c' = readCell g ((i : ℤ) + k) c')
  | [], g, i, _, _ =>
    ⟨g, rfl, rfl, fun _ => rfl, fun _ _ _ => rfl, by simp, by simp⟩
  | row :: rest, g, i, hlen, hw => by
    have hlenc : ((row :: rest).length : ℤ) = rest.length + 1 := by
      simp only [List.length_cons]
      push_cast
      ring
    have hi : (i : ℤ) < (g.length : ℤ) := by
      rw [hlenc] at hlen
      have h0 : (0 : ℤ) ≤ rest.length := by positivity
      omega
    have hrow0 : ((row.length : ℕ) : ℤ) ≤ ((g.getD i []).length : ℤ) := by
      have := hw 0 (by simp)
      simpa using this
    obtain ⟨g1, hw1, hl1, hrl1, hunch1, hwrite1⟩ :=
      writeRowFrom_spec row g i 0 hi (by simpa using hrow0)
    obtain ⟨g2, hw2, hl2, hrl2, hunch2, hwrite2, hskip2⟩ :=
      copyRowsFrom_spec rest g1 (i + 1)
        (by rw [hl1]; rw [hlenc] at hlen; push_cast; omega)
        (by
          intro k hk
          rw [hrl1 (i + 1 + k)]
          have := hw (k + 1) (by simpa using hk)
          have harr : i + (k + 1) = i + 1 + k := by omega
          rw [harr] at this
          simpa using this)
    refine ⟨g2, ?_, by rw [hl2, hl1], fun n => by rw [hrl2 n, hrl1 n],
      ?_, ?_, ?_⟩
    · show copyRowsFrom g i (row :: rest) = some g2
      simp only [copyRowsFrom, Option.bind_eq_bind, hw1, Option.some_bind]
      exact hw2
    · intro r' c' hcond
      have hcond2 : r' < ((i + 1 : ℕ) : ℤ) ∨ ((i + 1 : ℕ) : ℤ) + rest.length ≤ r' := by
        rcases hcond with h | h
        · exact Or.inl (by push_cast; omega)
        · rw [hlenc] at h
          exact Or.inr (by push_cast; omega)
      rw [hunch2 r' c' hcond2]
      refine hunch1 r' c' (Or.inl ?_)
      rcases hcond with h | h
      · omega
      · rw [hlenc] at h
        have h0 : (0 : ℤ) ≤ rest.length := by positivity
        omega
    · intro k hk c hc
      cases k with
      | zero =>
        simp only [Nat.cast_zero]
        have hu : readCell g2 ((i : ℤ) + 0) (c : ℤ) =
            readCell g1 ((i : ℤ) + 0) (c : ℤ) := by
          refine hunch2 _ _ (Or.inl ?_)
          push_cast
          omega
        rw [hu]
        have := hwrite1 c (by simpa using hc)
        simpa using this
      | succ k' =>
        have harith : (i : ℤ) + ((k' + 1 : ℕ) : ℤ) = ((i + 1 : ℕ) : ℤ) + k' := by
          push_cast
          ring
        rw [harith]
        have := hwrite2 k' (by simpa using hk) c (by simpa using hc)
        simpa using this
    · intro k hk c' hc'
      cases k with
      | zero =>
        simp only [Nat.cast_zero]
        have hu : readCell g2 ((i : ℤ) + 0) c' = readCell g1 ((i : ℤ) + 0) c' := by
          refine hunch2 _ _ (Or.inl ?_)
          push_cast
          omega
        rw [hu]
        refine hunch1 _ _ (Or.inr (Or.inr ?_))
        simpa using hc'
      | succ k' =>
        have harith : (i : ℤ) + ((k' + 1 : ℕ) : ℤ) = ((i + 1 : ℕ) : ℤ) + k' := by
          push_cast
          ring
        rw [harith]
        have hs := hskip2 k' (by simpa using hk) c' (by simpa using hc')
        rw [hs]
        refine hunch1 _ _ (Or.inl ?_)
        push_cast
        omega

theorem grid_ext {a b : Grid} (hl : a.length = b.length)
    (hrl : ∀ i : ℕ, i < a.length → (a.getD i []).length = (b.getD i []).length)
    (h : ∀ i c : ℕ, i < a.length → c < (a.getD i []).length →
      readCell a (i : ℤ) (c : ℤ) = readCell b (i : ℤ) (c : ℤ)) : a = b := by
  refine shape_ext hl hrl ?_
  intro i j hi hj
  have ha := readCell_valid hi hj
  have hb := readCell_valid (show i < b.length by omega)
    (show j < (b.getD i []).length by rw [← hrl i hi]; exact hj)
  have hij := h i j hi hj
  rw [ha, hb] at hij
  exact Option.some.inj hij

theorem clearGame_length : clearGame.length = GRID_HEIGHT := by
  simp [clearGame]

theorem clearGame_row_length :
    ∀ n : ℕ, n < GRID_HEIGHT → (clearGame.getD n []).length = GRID_WIDTH := by
  intro n hn
  rw [List.getD_eq_getD_get?, List.get?_eq_getElem?]
  unfold clearGame
  rw [List.getElem?_replicate, if_pos hn]
  simp

theorem rows_length_getD {g : Grid} {w : ℕ} (hw : ∀ row ∈ g, row.length = w) :
    ∀ n : ℕ, n < g.length → (g.getD n []).length = w := by
  intro n hn
  refine hw _ ?_
  rw [List.getD_eq_getElem _ _ hn]
  exact List.getElem_mem hn

theorem copyGrid_self {src : Grid} (hl : src.length = GRID_HEIGHT)
    (hw : ∀ row ∈ src, row.length = GRID_WIDTH) :
    copyGrid src clearGame = some src := by
  have hsrc_row := rows_length_getD hw
  obtain ⟨g', hcopy, hlen', hrl', _, hwrite', _⟩ :=
    copyRowsFrom_spec src clearGame 0
      (by rw [clearGame_length, hl]; push_cast; omega)
      (by
        intro k hk
        rw [hsrc_row k hk, clearGame_row_length (0 + k) (by omega)])
  have hg' : g' = src := by
    refine grid_ext ?_ ?_ ?_
    · rw [hlen', clearGame_length, hl]
    · intro i hi
      rw [hlen', clearGame_length] at hi
      rw [hrl' i, clearGame_row_length i hi, hsrc_row i (by omega)]
    · intro i c hi hc
      rw [hlen', clearGame_length] at hi
      rw [hrl' i, clearGame_row_length i hi] at hc
      have hwr := hwrite' i (by omega) c (by rw [hsrc_row i (by omega)]; exact hc)
      have hrd := @readCell_valid src i c (by omega)
        (by rw [hsrc_row i (by omega)]; exact hc)
      rw [hrd]
      rw [show ((0 : ℕ) : ℤ) + (i : ℤ) = (i : ℤ) by push_cast; ring] at hwr
      exact hwr
  unfold copyGrid
  rw [hcopy, hg']

theorem landRowFrom_spec (s : State) :
    ∀ (row : List ℤ) (g : Grid) (i j : ℕ),
      (∀ k : ℕ, k < row.length → row.getD k 0 ≠ 0 →
        0 ≤ (i : ℤ) + s.row ∧ (i : ℤ) + s.row < (g.length : ℤ) ∧
        0 ≤ (j : ℤ) + k + s.col ∧
        (j : ℤ) + k + s.col < ((g.getD ((i : ℤ) + s.row).toNat []).length : ℤ)) →
      ∃ g', landRowFrom s g i j row = some g' ∧
        g'.length = g.length ∧
        (∀ n : ℕ, (g'.getD n []).length = (g.getD n []).length) ∧
        (∀ r' c' : ℤ,
          (∀ k : ℕ, k < row.length → row.getD k 0 ≠ 0 →
            ¬ (r' = (i : ℤ) + s.row ∧ c' = (j : ℤ) + k + s.col)) →
          readCell g' r' c' = readCell g r' c') ∧
        (∀ k : ℕ, k < row.length → row.getD k 0 ≠ 0 →
          ∀ old : ℤ,
            readCell g ((i : ℤ) + s.row) ((j : ℤ) + k + s.col) = some old →
            readCell g' ((i : ℤ) + s.row) ((j : ℤ) + k + s.col) =
              some (updatePosition old (row.getD k 0)))
  | [], g, i, j, _ =>
    ⟨g, rfl, rfl, fun _ => rfl, fun _ _ _ => rfl, by simp⟩
  | v :: rest, g, i, j, hb => by
    by_cases hv : v ≠ 0
    · have hb0 := hb 0 (by simp) (by simpa using hv)
      have hc0 : (j : ℤ) + ((0 : ℕ) : ℤ) + s.col = (j : ℤ) + s.col := by
        push_cast
        ring
      rw [hc0] at hb0
      have hold : readCell g ((i : ℤ) + s.row) ((j : ℤ) + s.col) =
          some ((g.getD ((i : ℤ) + s.row).toNat []).getD
            ((j : ℤ) + s.col).toNat 0) :=
        readCell_isSome_of_bounds hb0.1 hb0.2.1 hb0.2.2.1 hb0.2.2.2
      obtain ⟨g1, hset⟩ : ∃ g1,
          setCell g ((i : ℤ) + s.row) ((j : ℤ) + s.col)
            (updatePosition ((g.getD ((i : ℤ) + s.row).toNat []).getD
              ((j : ℤ) + s.col).toNat 0) v) = some g1 :=
        ⟨_, setCell_eq_some_of_bounds hb0.1 hb0.2.1 hb0.2.2.1 hb0.2.2.2⟩
      obtain ⟨hl1, hrl1, hread1, hunch1, _⟩ := setCell_spec hset
      obtain ⟨g2, heq2, hl2, hrl2, hunch2, hwrite2⟩ :=
        landRowFrom_spec s rest g1 i (j + 1) (by
          intro k hk hkv
          have := hb (k + 1) (by simpa using hk) (by simpa using hkv)
          have harith : (j : ℤ) + ((k + 1 : ℕ) : ℤ) + s.col =
              ((j + 1 : ℕ) : ℤ) + (k : ℤ) + s.col := by
            push_cast
            ring
          rw [harith] at this
          refine ⟨this.1, by rw [hl1]; exact this.2.1, this.2.2.1, ?_⟩
          rw [hrl1]
          exact this.2.2.2)
      refine ⟨g2, ?_, by rw [hl2, hl1], fun n => by rw [hrl2 n, hrl1 n], ?_, ?_⟩
      · show landRowFrom s g i j (v :: rest) = some g2
        simp only [landRowFrom, if_pos hv, Option.bind_eq_bind, hold,
          Option.some_bind, hset]
        exact heq2
      · intro r' c' hnone
        have hcond2 : ∀ k : ℕ, k < rest.length → rest.getD k 0 ≠ 0 →
            ¬ (r' = (i : ℤ) + s.row ∧ c' = ((j + 1 : ℕ) : ℤ) + k + s.col) := by
          intro k hk hkv
          have := hnone (k + 1) (by simpa using hk) (by simpa using hkv)
          have harith : (j : ℤ) + ((k + 1 : ℕ) : ℤ) + s.col =
              ((j + 1 : ℕ) : ℤ) + (k : ℤ) + s.col := by
            push_cast
            ring
          rw [harith] at this
          exact this
        rw [hunch2 r' c' hcond2]
        refine hunch1 r' c' ?_
        have := hnone 0 (by simp) (by simpa using hv)
        rw [hc0] at this
        exact this
      · intro k hk hkv old holdk
        cases k with
        | zero =>
          rw [hc0] at holdk ⊢
          have hvold : old = (g.getD ((i : ℤ) + s.row).toNat []).getD
              ((j : ℤ) + s.col).toNat 0 := by
            rw [hold] at holdk
            exact (Option.some.inj holdk).symm
          have hu2 : readCell g2 ((i : ℤ) + s.row) ((j : ℤ) + s.col) =
              readCell g1 ((i : ℤ) + s.row) ((j : ℤ) + s.col) := by
            refine hunch2 _ _ ?_
            intro k' hk' hk'v
            rintro ⟨-, habs⟩
            have h0 : (0 : ℤ) ≤ (k' : ℤ) := by positivity
            push_cast at habs
            omega
          rw [hu2, hread1, hvold]
          simp
        | succ k' =>
          have harith : (j : ℤ) + ((k' + 1 : ℕ) : ℤ) + s.col =
              ((j + 1 : ℕ) : ℤ) + (k' : ℤ) + s.col := by
            push_cast
            ring
          rw [harith] at holdk ⊢
          have hg1read : readCell g1 ((i : ℤ) + s.row)
              (((j + 1 : ℕ) : ℤ) + (k' : ℤ) + s.col) = some old := by
            rw [← holdk]
            refine hunch1 _ _ ?_
            rintro ⟨-, habs⟩
            have h0 : (0 : ℤ) ≤ (k' : ℤ) := by positivity
            push_cast at habs
            omega
          have := hwrite2 k' (by simpa using hk) (by simpa using hkv) old hg1read
          rw [this]
          simp
    · have hveq : v = 0 := by simpa using hv
      obtain ⟨g2, heq2, hl2, hrl2, hunch2, hwrite2⟩ :=
        landRowFrom_spec s rest g i (j + 1) (by
          intro k hk hkv
          have := hb (k + 1) (by simpa using hk) (by simpa using hkv)
          have harith : (j : ℤ) + ((k + 1 : ℕ) : ℤ) + s.col =
              ((j + 1 : ℕ) : ℤ) + (k : ℤ) + s.col := by
            push_cast
            ring
          rw [harith] at this
          exact this)
      refine ⟨g2, ?_, hl2, hrl2, ?_, ?_⟩
      · show landRowFrom s g i j (v :: rest) = some g2
        simp only [landRowFrom, if_neg hv]
        exact heq2
      · intro r' c' hnone
        refine hunch2 r' c' ?_
        intro k hk hkv
        have := hnone (k + 1) (by simpa using hk) (by simpa using hkv)
        have harith : (j : ℤ) + ((k + 1 : ℕ) : ℤ) + s.col =
            ((j + 1 : ℕ) : ℤ) + (k : ℤ) + s.col := by
          push_cast
          ring
        rw [harith] at this
        exact this
      · intro k hk hkv old holdk
        cases k with
        | zero => exact absurd (by simpa using hkv) (by simp [hveq])
        | succ k' =>
          have harith : (j : ℤ) + ((k' + 1 : ℕ) : ℤ) + s.col =
              ((j + 1 : ℕ) : ℤ) + (k' : ℤ) + s.col := by
            push_cast
            ring
          rw [harith] at holdk ⊢
          have := hwrite2 k' (by simpa using hk) (by simpa using hkv) old holdk
          rw [this]
          simp

theorem landRowsFrom_spec (s : State) :
    ∀ (rows : List (List ℤ)) (g : Grid) (i : ℕ),
      (∀ a k : ℕ, a < rows.length → k < (rows.getD a []).length →
        (rows.getD a []).getD k 0 ≠ 0 →
        0 ≤ ((i + a : ℕ) : ℤ) + s.row ∧
        ((i + a : ℕ) : ℤ) + s.row < (g.length : ℤ) ∧
        0 ≤ (k : ℤ) + s.col ∧
        (k : ℤ) + s.col <
          ((g.getD (((i + a : ℕ) : ℤ) + s.row).toNat []).length : ℤ)) →
      ∃ g', landRowsFrom s g i rows = some g' ∧
        g'.length = g.length ∧
        (∀ n : ℕ, (g'.getD n []).length = (g.getD n []).length) ∧
        (∀ r' c' : ℤ,
          (∀ a k : ℕ, a < rows.length → k < (rows.getD a []).length →
            (rows.getD a []).getD k 0 ≠ 0 →
            ¬ (r' = ((i + a : ℕ) : ℤ) + s.row ∧ c' = (k : ℤ) + s.col)) →
          readCell g' r' c' = readCell g r' c') ∧
        (∀ a k : ℕ, a < rows.length → k < (rows.getD a []).length →
          (rows.getD a []).getD k 0 ≠ 0 →
          ∀ old : ℤ,
            readCell g (((i + a : ℕ) : ℤ) + s.row) ((k : ℤ) + s.col) =
              some old →
            readCell g' (((i + a : ℕ) : ℤ) + s.row) ((k : ℤ) + s.col) =
              some (updatePosition old ((rows.getD a []).getD k 0)))
  | [], g, i, _ =>
    ⟨g, rfl, rfl, fun _ => rfl, fun _ _ _ => rfl, by simp⟩
  | row :: rest, g, i, hb => by
    have hz : ∀ k : ℕ, ((0 : ℕ) : ℤ) + (k : ℤ) + s.col = (k : ℤ) + s.col := by
      intro k
      push_cast
      ring
    have hi0 : ((i + 0 : ℕ) : ℤ) = (i : ℤ) := by push_cast; ring
    obtain ⟨g1, heq1, hl1, hrl1, hunch1, hwrite1⟩ :=
      landRowFrom_spec s row g i 0 (by
        intro k hk hkv
        have := hb 0 k (by simp) (by simpa using hk) (by simpa using hkv)
        rw [hi0] at this
        rw [hz k]
        exact this)
    obtain ⟨g2, heq2, hl2, hrl2, hunch2, hwrite2⟩ :=
      landRowsFrom_spec s rest g1 (i + 1) (by
        intro a k ha hk hkv
        have := hb (a + 1) k (by simpa using ha) (by simpa using hk)
          (by simpa using hkv)
        have harr : (i + (a + 1) : ℕ) = (i + 1 + a : ℕ) := by omega
        rw [harr] at this
        refine ⟨this.1, by rw [hl1]; exact this.2.1, this.2.2.1, ?_⟩
        rw [hrl1]
        exact this.2.2.2)
    refine ⟨g2, ?_, by rw [hl2, hl1], fun n => by rw [hrl2 n, hrl1 n], ?_, ?_⟩
    · show landRowsFrom s g i (row :: rest) = some g2
      simp only [landRowsFrom, Option.bind_eq_bind, heq1, Option.some_bind]
      exact heq2
    · intro r' c' hnone
      have hcond2 : ∀ a k : ℕ, a < rest.length → k < (rest.getD a []).length →
          (rest.getD a []).getD k 0 ≠ 0 →
          ¬ (r' = ((i + 1 + a : ℕ) : ℤ) + s.row ∧ c' = (k : ℤ) + s.col) := by
        intro a k ha hk hkv
        have := hnone (a + 1) k (by simpa using ha) (by simpa using hk)
          (by simpa using hkv)
        have harr : (i + (a + 1) : ℕ) = (i + 1 + a : ℕ) := by omega
        rw [harr] at this
        exact this
      rw [hunch2 r' c' hcond2]
      refine hunch1 r' c' ?_
      intro k hk hkv
      have := hnone 0 k (by simp) (by simpa using hk) (by simpa using hkv)
      rw [hi0] at this
      rw [hz k]
      exact this
    · intro a k ha hk hkv old holdk
      cases a with
      | zero =>
        rw [hi0] at holdk ⊢
        have hu2 : readCell g2 ((i : ℤ) + s.row) ((k : ℤ) + s.col) =
            readCell g1 ((i : ℤ) + s.row) ((k : ℤ) + s.col) := by
          refine hunch2 _ _ ?_
          intro a' k' _ _ _
          rintro ⟨habs, -⟩
          have h0 : (0 : ℤ) ≤ (a' : ℤ) := by positivity
          push_cast at habs
          omega
        rw [hu2]
        have := hwrite1 k (by simpa using hk) (by simpa using hkv) old
          (by rw [hz k]; exact holdk)
        rw [hz k] at this
        rw [this]
        simp
      | succ a' =>
        have harr : (i + (a' + 1) : ℕ) = (i + 1 + a' : ℕ) := by omega
        rw [harr] at holdk ⊢
        have hg1read : readCell g1 (((i + 1 + a' : ℕ) : ℤ) + s.row)
            ((k : ℤ) + s.col) = some old := by
          rw [← holdk]
          refine hunch1 _ _ ?_
          intro k' _ _
          rintro ⟨habs, -⟩
          have h0 : (0 : ℤ) ≤ (a' : ℤ) := by positivity
          push_cast at habs
          omega
        have := hwrite2 a' k (by simpa using ha) (by simpa using hk)
          (by simpa using hkv) old hg1read
        rw [this]
        simp

theorem jsGet_eq_getD {α : Type _} (d : α) {l : List α} {idx : ℤ}
    (h0 : 0 ≤ idx) (h1 : idx < (l.length : ℤ)) :
    jsGet l idx = some (l.getD idx.toNat d) := by
  rw [jsGet, if_pos h0, List.getD_eq_getD_get?]
  cases hx : l.get? idx.toNat with
  | none =>
    rw [List.get?_eq_none] at hx
    omega
  | some x => rfl

theorem someIdxM_isSome {α : Type _} :
    ∀ (l : List α) (f : ℕ → α → Option Bool),
      (∀ (k : ℕ) (a : α), l.get? k = some a → f k a ≠ none) →
      (someIdxM l f).isSome
  | [], _, _ => rfl
  | a :: rest, f, h => by
    simp only [someIdxM]
    cases hf : f 0 a with
    | none => exact absurd hf (h 0 a rfl)
    | some b =>
      cases b with
      | true => rfl
      | false =>
        exact someIdxM_isSome rest (fun k b => f (k + 1) b)
          (fun k b hk => h (k + 1) b (by simpa using hk))

theorem jsFindIndex_ge_neg_one {α : Type _} (p : α → Bool) :
    ∀ l : List α, -1 ≤ jsFindIndex p l
  | [] => le_refl _
  | a :: l => by
    have ih := jsFindIndex_ge_neg_one p l
    simp only [jsFindIndex]
    split_ifs <;> omega

theorem jsFindIndex_spec {α : Type _} (p : α → Bool) (d : α) :
    ∀ l : List α, (jsFindIndex p l = -1 ∧ ∀ a ∈ l, p a = false) ∨
      ∃ r : ℕ, jsFindIndex p l = (r : ℤ) ∧ r < l.length ∧
        p (l.getD r d) = true ∧ ∀ i : ℕ, i < r → p (l.getD i d) = false
  | [] => Or.inl ⟨rfl, by simp⟩
  | a :: l => by
    by_cases hp : p a = true
    · refine Or.inr ⟨0, ?_, by simp, by simpa using hp,
        fun i hi => absurd hi (by omega)⟩
      simp [jsFindIndex, hp]
    · rcases jsFindIndex_spec p d l with ⟨h1, h2⟩ | ⟨r, h1, h2, h3, h4⟩
      · refine Or.inl ⟨?_, ?_⟩
        · simp [jsFindIndex, hp, h1]
        · intro b hb
          rcases List.mem_cons.mp hb with rfl | hb'
          · simpa using hp
          · exact h2 b hb'
      · refine Or.inr ⟨r + 1, ?_, by simpa using h2, by simpa using h3, ?_⟩
        · have hr0 : ¬ ((r : ℤ) = -1) := by omega
          simp only [jsFindIndex, hp, Bool.false_eq_true, if_false, h1, hr0]
          push_cast
          ring
        · intro i hi
          cases i with
          | zero => simpa using hp
          | succ i' =>
            have := h4 i' (by omega)
            simpa using this

theorem occupied_le_lastIdx {l : List (List ℤ)} {i j : ℕ} (hi : i < l.length)
    (hj : j < (l.getD i []).length) (hv : (l.getD i []).getD j 0 ≠ 0) :
    (i : ℤ) ≤ lastIdxAux l := by
  by_contra hlt
  have hz := rows_after_last_all_zero l i (by omega) hi
  refine hv (hz _ ?_)
  rw [List.getD_eq_getElem _ _ hj]
  exact List.getElem_mem hj

theorem isStackingOnBlocks_isSome {s' : State}
    (hbound : ∀ i j : ℕ, i < s'.currentTetromino.length →
      j < (s'.currentTetromino.getD i []).length →
      (s'.currentTetromino.getD i []).getD j 0 ≠ 0 →
      0 ≤ (i : ℤ) + s'.row + 1 ∧
        (i : ℤ) + s'.row + 1 < (s'.grid.length : ℤ)) :
    (isStackingOnBlocks s').isSome := by
  unfold isStackingOnBlocks
  refine someIdxM_isSome _ _ ?_
  intro k row hk
  have hklen : k < s'.currentTetromino.length := by
    rw [List.get?_eq_getElem?] at hk
    exact (List.getElem?_eq_some.mp hk).1
  have hrowD : s'.currentTetromino.getD k [] = row := by
    rw [List.getD_eq_getD_get?, hk]
    rfl
  have hsome : (someIdxM row fun j _ => isCollidingAtCell s' k j 1 0).isSome := by
    refine someIdxM_isSome _ _ ?_
    intro j v hj
    have hjlen : j < row.length := by
      rw [List.get?_eq_getElem?] at hj
      exact (List.getElem?_eq_some.mp hj).1
    have hvD : row.getD j 0 = v := by
      rw [List.getD_eq_getD_get?, hj]
      rfl
    simp only [isCollidingAtCell, hk]
    by_cases hocc : jsGet row (j : ℤ) ≠ some 0
    · rw [if_pos hocc]
      by_cases hog : isOnGround s'
      · rw [if_pos hog]
        simp
      · rw [if_neg hog]
        have hv0 : v ≠ 0 := by
          intro hv
          refine hocc ?_
          rw [jsGet_natCast]
          rw [hj, hv]
        have hb := hbound k j hklen (by rw [hrowD]; exact hjlen)
          (by rw [hrowD, hvD]; exact hv0)
        have hgr : jsGet s'.grid ((k : ℤ) + s'.row + 1) =
            some (s'.grid.getD ((k : ℤ) + s'.row + 1).toNat []) :=
          jsGet_eq_getD [] hb.1 hb.2
        simp [hgr]
    · rw [if_neg hocc]
      simp
  intro habs
  rw [habs] at hsome
  exact absurd hsome (by simp)

/-- C2: `tetrominoLanded` commits the piece's occupied cells into the grid
(first writer wins: a 0 cell takes the piece value, a nonzero cell is left
unchanged, every other cell is untouched), promotes `nextTetromino` to
`currentTetromino`, horizontally centers the new anchor at
`floor((GRID_WIDTH - size(next)) / 2)`, sets the anchor row so the next
shape's first non-empty row aligns with grid row 0, and preserves `score`
and `level` across the landing. -/
theorem tetrominoLanded_commits_and_respawns (s : State)
    (hgl : s.grid.length = GRID_HEIGHT)
    (hgw : ∀ row ∈ s.grid, row.length = GRID_WIDTH)
    (hfoot : ∀ i j : ℕ, i < s.currentTetromino.length →
      j < (s.currentTetromino.getD i []).length →
      (s.currentTetromino.getD i []).getD j 0 ≠ 0 →
      0 ≤ (i : ℤ) + s.row ∧ (i : ℤ) + s.row < (GRID_HEIGHT : ℤ) ∧
        0 ≤ (j : ℤ) + s.col ∧ (j : ℤ) + s.col < (GRID_WIDTH : ℤ))
    (hnext : ∃ i : ℕ, i < s.nextTetromino.length ∧
      ∃ j : ℕ, j < (s.nextTetromino.getD i []).length ∧
        (s.nextTetromino.getD i []).getD j 0 ≠ 0)
    (hrand : (randomTetromino s.seed).isSome = true)
    (hresp : lastIdxAux s.nextTetromino +
      findFirstNonEmptyRowIndex s.nextTetromino ≤ (GRID_HEIGHT : ℤ) - 2) :
    ∃ s', tetrominoLanded s = some s' ∧
      s'.currentTetromino = s.nextTetromino ∧
      s'.col = Int.fdiv ((GRID_WIDTH : ℤ) - s.nextTetromino.length) 2 ∧
      (∃ k : ℕ, k < s.nextTetromino.length ∧
        (∃ j : ℕ, j < (s.nextTetromino.getD k []).length ∧
          (s.nextTetromino.getD k []).getD j 0 ≠ 0) ∧
        (∀ i : ℕ, i < k → ∀ c ∈ s.nextTetromino.getD i [], c = 0) ∧
        s'.row + (k : ℤ) = 0) ∧
      s'.score = s.score ∧ s'.level = s.level ∧
      s'.grid.length = GRID_HEIGHT ∧
      (∀ i j : ℕ, i < s.currentTetromino.length →
        j < (s.currentTetromino.getD i []).length →
        (s.currentTetromino.getD i []).getD j 0 ≠ 0 →
        ∀ old : ℤ,
          readCell s.grid ((i : ℤ) + s.row) ((j : ℤ) + s.col) = some old →
          readCell s'.grid ((i : ℤ) + s.row) ((j : ℤ) + s.col) =
            some (if old = 0 then (s.currentTetromino.getD i []).getD j 0
                  else old)) ∧
      (∀ r c : ℤ,
        (∀ i j : ℕ, i < s.currentTetromino.length →
          j < (s.currentTetromino.getD i []).length →
          (s.currentTetromino.getD i []).getD j 0 ≠ 0 →
          ¬ (r = (i : ℤ) + s.row ∧ c = (j : ℤ) + s.col)) →
        readCell s'.grid r c = readCell s.grid r c) := by
  have hGH : (GRID_HEIGHT : ℤ) = 20 := by norm_num [GRID_HEIGHT]
  have hGW : (GRID_WIDTH : ℤ) = 10 := by norm_num [GRID_WIDTH]
  have hGHn : GRID_HEIGHT = 20 := by norm_num [GRID_HEIGHT]
  have hgrow := rows_length_getD hgw
  have hcopy := copyGrid_self hgl hgw
  obtain ⟨g2, hland, hl2, hrl2, hunch2, hwrite2⟩ :=
    landRowsFrom_spec s s.currentTetromino s.grid 0 (by
      intro a k ha hk hkv
      have hf := hfoot a k ha hk hkv
      have hza : ((0 + a : ℕ) : ℤ) = (a : ℤ) := by push_cast; ring
      rw [hza]
      refine ⟨hf.1, by rw [hgl]; omega, hf.2.2.1, ?_⟩
      have htn : ((a : ℤ) + s.row).toNat < s.grid.length := by
        rw [hgl]
        omega
      rw [hgrow _ htn]
      omega)
  obtain ⟨nx, hnx⟩ := Option.isSome_iff_exists.mp hrand
  obtain ⟨ns, hns, hcur, hcol, hrow, hgrid, hscore, hlevel⟩ :
      ∃ ns, createNewState 0 (some { s with grid := g2 }) = some ns ∧
        ns.currentTetromino = s.nextTetromino ∧
        ns.col = Int.fdiv ((GRID_WIDTH : ℤ) - s.nextTetromino.length) 2 ∧
        ns.row = findFirstNonEmptyRowIndex s.nextTetromino ∧
        ns.grid = g2 ∧ ns.score = s.score ∧ ns.level = s.level :=
    ⟨_, createNewState_some_spec.mpr ⟨nx, hnx, rfl⟩, rfl, rfl, rfl, rfl, rfl,
      rfl⟩
  rcases jsFindIndex_spec (fun row => row.any fun b => decide (b ≠ 0)) []
      s.nextTetromino with ⟨_, hall⟩ | ⟨k0, hk1, hk2, hk3, hk4⟩
  · exfalso
    obtain ⟨i, hi, j, hj, hv⟩ := hnext
    have hmem : s.nextTetromino.getD i [] ∈ s.nextTetromino := by
      rw [List.getD_eq_getElem _ _ hi]
      exact List.getElem_mem hi
    have := hall _ hmem
    rw [List.any_eq_false] at this
    refine hv ?_
    have hc := this ((s.nextTetromino.getD i []).getD j 0) (by
      rw [List.getD_eq_getElem _ _ hj]
      exact List.getElem_mem hj)
    simpa using hc
  · have hrowval : findFirstNonEmptyRowIndex s.nextTetromino = -(k0 : ℤ) := by
      rw [findFirstNonEmptyRowIndex, hk1]
    have hnslen : ns.grid.length = GRID_HEIGHT := by
      rw [hgrid, hl2, hgl]
    have hbound : ∀ i j : ℕ, i < ns.currentTetromino.length →
        j < (ns.currentTetromino.getD i []).length →
        (ns.currentTetromino.getD i []).getD j 0 ≠ 0 →
        0 ≤ (i : ℤ) + ns.row + 1 ∧
          (i : ℤ) + ns.row + 1 < (ns.grid.length : ℤ) := by
      intro i j hi hj hv
      rw [hcur] at hi hj hv
      have hik0 : (k0 : ℤ) ≤ (i : ℤ) := by
        by_contra hlt
        have hik : i < k0 := by omega
        have := hk4 i hik
        rw [List.any_eq_false] at this
        refine hv ?_
        have hc := this ((s.nextTetromino.getD i []).getD j 0) (by
          rw [List.getD_eq_getElem _ _ hj]
          exact List.getElem_mem hj)
        simpa using hc
      have hilast : (i : ℤ) ≤ lastIdxAux s.nextTetromino :=
        occupied_le_lastIdx hi hj hv
      rw [hrow, hrowval]
      rw [hrowval] at hresp
      constructor
      · omega
      · rw [hnslen]
        omega
    obtain ⟨b, hstack⟩ :=
      Option.isSome_iff_exists.mp (isStackingOnBlocks_isSome hbound)
    have hfinal : tetrominoLanded s =
        (if b then some { ns with gameEnd := true } else some ns) := by
      unfold tetrominoLanded
      simp only [Option.bind_eq_bind, hcopy, Option.some_bind, hland, hns,
        hstack]
    refine ⟨if b then { ns with gameEnd := true } else ns, ?_, ?_, ?_, ?_,
      ?_, ?_, ?_, ?_, ?_⟩
    · rw [hfinal]
      cases b <;> rfl
    · cases b <;> simpa using hcur
    · cases b <;> simpa using hcol
    · refine ⟨k0, by simpa using hk2, ?_, ?_, ?_⟩
      · rw [List.any_eq_true] at hk3
        obtain ⟨c, hcmem, hc⟩ := hk3
        obtain ⟨j, hjlt, hjv⟩ := List.getElem_of_mem hcmem
        refine ⟨j, hjlt, ?_⟩
        rw [List.getD_eq_getElem _ _ hjlt, hjv]
        simpa using hc
      · intro i hik c hcmem
        have := hk4 i hik
        rw [List.any_eq_false] at this
        have hc := this c hcmem
        simpa using hc
      · have hr : (if b then { ns with gameEnd := true } else ns).row =
            ns.row := by cases b <;> rfl
        rw [hr, hrow, hrowval]
        ring
    · cases b <;> simpa using hscore
    · cases b <;> simpa using hlevel
    · have hg : (if b then { ns with gameEnd := true } else ns).grid =
          ns.grid := by cases b <;> rfl
      rw [hg, hnslen]
    · intro i j hi hj hv old hold
      have hg : (if b then { ns with gameEnd := true } else ns).grid =
          g2 := by cases b <;> simpa using hgrid
      rw [hg]
      have hza : ((0 + i : ℕ) : ℤ) = (i : ℤ) := by push_cast; ring
      have hw := hwrite2 i j hi hj hv old (by rw [hza]; exact hold)
      rw [hza] at hw
      rw [hw]
      rfl
    · intro r c hnone
      have hg : (if b then { ns with gameEnd := true } else ns).grid =
          g2 := by cases b <;> simpa using hgrid
      rw [hg]
      refine hunch2 r c ?_
      intro a k ha hk hkv
      have hza : ((0 + a : ℕ) : ℤ) = (a : ℤ) := by push_cast; ring
      rw [hza]
      exact hnone a k ha hk hkv

/-- C2 witness: landing the O piece resting on the floor of an empty grid
promotes the preview T piece and preserves the score. -/
theorem tetrominoLanded_commits_and_respawns_witness :
    ∃ s', tetrominoLanded csC2w = some s' ∧
      s'.currentTetromino = csC2w.nextTetromino ∧ s'.score = csC2w.score := by
  have hsc : RNG.scale 654583775 * 7 =
      ((4582086425 : ℤ) : ℚ) / ((2147483647 : ℕ) : ℚ) := by
    rw [RNG.scale, RNG.m]
    push_cast
    norm_num
  have hpi : pieceIndex 654583775 = 2 := by
    rw [pieceIndex, hsc, Rat.floor_intCast_div_natCast]
    decide
  have hrt : (randomTetromino csC2w.seed).isSome = true := by
    rw [show csC2w.seed = 654583775 from rfl, randomTetromino, hpi]
    rfl
  have hfoot : ∀ i j : ℕ, i < csC2w.currentTetromino.length →
      j < (csC2w.currentTetromino.getD i []).length →
      (csC2w.currentTetromino.getD i []).getD j 0 ≠ 0 →
      0 ≤ (i : ℤ) + csC2w.row ∧ (i : ℤ) + csC2w.row < (GRID_HEIGHT : ℤ) ∧
        0 ≤ (j : ℤ) + csC2w.col ∧ (j : ℤ) + csC2w.col < (GRID_WIDTH : ℤ) := by
    intro i j hi hj hv
    have hi2 : i < 2 := by simpa [csC2w] using hi
    interval_cases i <;>
      · have hj2 : j < 2 := by simpa [csC2w] using hj
        interval_cases j <;> decide
  obtain ⟨s', h1, h2, _, _, h5, _⟩ :=
    tetrominoLanded_commits_and_respawns csC2w (by decide) (by decide)
      hfoot ⟨0, by decide, 1, by decide, by decide⟩ hrt (by decide)
  exact ⟨s', h1, h2, h5⟩

theorem jsGet_eq_none {α : Type _} {l : List α} {idx : ℤ}
    (h : idx < 0 ∨ (l.length : ℤ) ≤ idx) : jsGet l idx = none := by
  rw [jsGet]
  rcases h with h | h
  · rw [if_neg (by omega)]
  · split_ifs with h0
    · exact List.get?_eq_none.mpr (by omega)
    · rfl

theorem lastIdx_row_occupied :
    ∀ l : List (List ℤ), 0 ≤ lastIdxAux l →
      ∃ j : ℕ, j < (l.getD (lastIdxAux l).toNat []).length ∧
        (l.getD (lastIdxAux l).toNat []).getD j 0 ≠ 0
  | [], h => absurd h (by simp [lastIdxAux])
  | row :: rest, h => by
    have hge := lastIdxAux_ge rest
    simp only [lastIdxAux] at h ⊢
    by_cases hr : lastIdxAux rest = -1
    · rw [if_pos hr] at h ⊢
      by_cases hany : row.any (fun block => decide (block ≠ 0)) = true
      · rw [if_pos hany]
        rw [List.any_eq_true] at hany
        obtain ⟨c, hcmem, hc⟩ := hany
        obtain ⟨j, hjlt, hjv⟩ := List.getElem_of_mem hcmem
        refine ⟨j, ?_, ?_⟩
        · simpa using hjlt
        · rw [show ((0 : ℤ).toNat = 0) from rfl]
          simp only [List.getD_cons_zero]
          rw [List.getD_eq_getElem _ _ hjlt, hjv]
          simpa using hc
      · rw [if_neg hany] at h
        exact absurd h (by omega)
    · rw [if_neg hr] at h ⊢
      have hr0 : 0 ≤ lastIdxAux rest := by omega
      have htn : (lastIdxAux rest + 1).toNat = (lastIdxAux rest).toNat + 1 := by
        omega
      rw [htn]
      simp only [List.getD_cons_succ]
      exact lastIdx_row_occupied rest hr0

theorem probe_rows_isSome (s : State) (dr dc : ℤ)
    (hrow : ∀ i j : ℕ, i < s.currentTetromino.length →
      j < (s.currentTetromino.getD i []).length →
      (s.currentTetromino.getD i []).getD j 0 ≠ 0 →
      0 ≤ (i : ℤ) + s.row + dr ∧
        (i : ℤ) + s.row + dr < (s.grid.length : ℤ)) :
    (someIdxM s.currentTetromino fun i row =>
      someIdxM row fun j _ => isCollidingAtCell s i j dr dc).isSome := by
  refine someIdxM_isSome _ _ ?_
  intro k row hk
  have hklen : k < s.currentTetromino.length := by
    rw [List.get?_eq_getElem?] at hk
    exact (List.getElem?_eq_some.mp hk).1
  have hrowD : s.currentTetromino.getD k [] = row := by
    rw [List.getD_eq_getD_get?, hk]
    rfl
  have hsome : (someIdxM row fun j _ => isCollidingAtCell s k j dr dc).isSome := by
    refine someIdxM_isSome _ _ ?_
    intro j v hj
    have hjlen : j < row.length := by
      rw [List.get?_eq_getElem?] at hj
      exact (List.getElem?_eq_some.mp hj).1
    have hvD : row.getD j 0 = v := by
      rw [List.getD_eq_getD_get?, hj]
      rfl
    simp only [isCollidingAtCell, hk]
    by_cases hocc : jsGet row (j : ℤ) ≠ some 0
    · rw [if_pos hocc]
      by_cases hog : isOnGround s
      · rw [if_pos hog]
        simp
      · rw [if_neg hog]
        have hv0 : v ≠ 0 := by
          intro hv
          refine hocc ?_
          rw [jsGet_natCast]
          rw [hj, hv]
        have hb := hrow k j hklen (by rw [hrowD]; exact hjlen)
          (by rw [hrowD, hvD]; exact hv0)
        have hgr : jsGet s.grid ((k : ℤ) + s.row + dr) =
            some (s.grid.getD ((k : ℤ) + s.row + dr).toNat []) :=
          jsGet_eq_getD [] hb.1 hb.2
        simp [hgr]
    · rw [if_neg hocc]
      simp
  intro habs
  rw [habs] at hsome
  exact absurd hsome (by simp)

/-- C7 counterexample: from a fresh game (`createNewState 0 none`), three
left inputs put the I piece at the left wall (state `csC7`); the next left
input's probe at the occupied shape cell (1,0) computes column index
`0 + col + (-1) = -1`, outside the 10-column grid, so the indices computed
by `isCollidingAtCell` do not all stay within the 20×10 grid on reachable
states.  The out-of-range read yields `undefined`, which compares unequal
to `0` and is reported as a collision (`some true`, not the on-ground
bypass: `isOnGround csC7 = false`), and the move is refused without any
error being thrown. -/
theorem side_probe_leaves_grid_counterexample :
    createNewState 0 none = some { csC7 with col := 3 } ∧
    processEvent (GameEvent.input Direction.left) { csC7 with col := 3 } =
      some { csC7 with col := 2 } ∧
    processEvent (GameEvent.input Direction.left) { csC7 with col := 2 } =
      some { csC7 with col := 1 } ∧
    processEvent (GameEvent.input Direction.left) { csC7 with col := 1 } =
      some csC7 ∧
    (csC7.currentTetromino.getD 1 []).getD 0 0 ≠ 0 ∧
    (0 : ℤ) + csC7.col + (-1) = -1 ∧
    isOnGround csC7 = false ∧
    isCollidingAtCell csC7 1 0 0 (-1) = some true ∧
    processEvent (GameEvent.input Direction.left) csC7 = some csC7 := by
  have hsc1 : RNG.scale 12345 * 7 =
      ((86415 : ℤ) : ℚ) / ((2147483647 : ℕ) : ℚ) := by
    rw [RNG.scale, RNG.m]
    push_cast
    norm_num
  have hpi1 : pieceIndex 12345 = 0 := by
    rw [pieceIndex, hsc1, Rat.floor_intCast_div_natCast]
    decide
  have hsc2 : RNG.scale 1406932606 * 7 =
      ((9848528242 : ℤ) : ℚ) / ((2147483647 : ℕ) : ℚ) := by
    rw [RNG.scale, RNG.m]
    push_cast
    norm_num
  have hpi2 : pieceIndex 1406932606 = 4 := by
    rw [pieceIndex, hsc2, Rat.floor_intCast_div_natCast]
    decide
  have hr1 : randomTetromino 12345 =
      some [[0, 0, 0, 0], [1, 1, 1, 1], [0, 0, 0, 0], [0, 0, 0, 0]] := by
    rw [randomTetromino, hpi1]
    rfl
  have hr2 : randomTetromino 1406932606 =
      some [[0, 5, 5], [5, 5, 0], [0, 0, 0]] := by
    rw [randomTetromino, hpi2]
    rfl
  have hh1 : RNG.hash 0 = 12345 := by decide
  have hh2 : RNG.hash 12345 = 1406932606 := by decide
  have h0 : createNewState 0 none = some { csC7 with col := 3 } := by
    simp only [createNewState, Option.bind_eq_bind, hh1, hh2, hr1, hr2,
      Option.some_bind]
    rfl
  refine ⟨h0, by decide, by decide, by decide, by decide, by decide,
    by decide, by decide, by decide⟩

/-- C7 (amended): the probes are total on states whose occupied footprint
lies within the grid's rows, but only because an out-of-range COLUMN read
counts as a collision: (1) for any column delta the side-collision probe
never throws (every grid ROW it fetches exists); (2) the stacking probe
never throws — its `deltaRow = 1` read is either short-circuited by the
on-ground check or stays within the 20 rows; (3) a probe at an occupied
cell whose computed column index leaves `[0, GRID_WIDTH)` reads `undefined`
and reports a collision (`some true`) rather than staying inside the grid,
which is how a side move at a wall is refused. -/
theorem collision_probes_row_safe (s : State)
    (hgl : s.grid.length = GRID_HEIGHT)
    (hgw : ∀ row ∈ s.grid, row.length = GRID_WIDTH)
    (hfoot : ∀ i : ℕ, i < s.currentTetromino.length →
      ∀ j : ℕ, j < (s.currentTetromino.getD i []).length →
        (s.currentTetromino.getD i []).getD j 0 ≠ 0 →
        0 ≤ (i : ℤ) + s.row ∧ (i : ℤ) + s.row < (GRID_HEIGHT : ℤ)) :
    (∀ deltaCol : ℤ, (isSideColliding s deltaCol).isSome = true) ∧
    (isStackingOnBlocks s).isSome = true ∧
    (∀ i j : ℕ, i < s.currentTetromino.length →
      j < (s.currentTetromino.getD i []).length →
      (s.currentTetromino.getD i []).getD j 0 ≠ 0 →
      ∀ deltaRow deltaCol : ℤ,
        isOnGround s = false →
        0 ≤ (i : ℤ) + s.row + deltaRow →
        (i : ℤ) + s.row + deltaRow < (GRID_HEIGHT : ℤ) →
        ((j : ℤ) + s.col + deltaCol < 0 ∨
          (GRID_WIDTH : ℤ) ≤ (j : ℤ) + s.col + deltaCol) →
        isCollidingAtCell s i j deltaRow deltaCol = some true) := by
  have hGH : (GRID_HEIGHT : ℤ) = 20 := by norm_num [GRID_HEIGHT]
  have hGW : (GRID_WIDTH : ℤ) = 10 := by norm_num [GRID_WIDTH]
  have hlen20 : (s.grid.length : ℤ) = 20 := by
    rw [hgl]
    norm_num [GRID_HEIGHT]
  refine ⟨?_, ?_, ?_⟩
  · intro dc
    unfold isSideColliding
    refine probe_rows_isSome s 0 dc ?_
    intro i j hi hj hv
    have hf := hfoot i hi j hj hv
    constructor <;> omega
  · by_cases hog : isOnGround s = true
    · rw [isStackingOnBlocks_of_onGround hog]
      rfl
    · unfold isStackingOnBlocks
      refine probe_rows_isSome s 1 0 ?_
      intro i j hi hj hv
      have hf := hfoot i hi j hj hv
      have hle : (i : ℤ) ≤ lastIdxAux s.currentTetromino :=
        occupied_le_lastIdx hi hj hv
      have hl0 : 0 ≤ lastIdxAux s.currentTetromino := by
        have : (0 : ℤ) ≤ (i : ℤ) := Int.ofNat_nonneg i
        omega
      have hllt := lastIdxAux_lt_length s.currentTetromino
      obtain ⟨j2, hj2, hv2⟩ := lastIdx_row_occupied s.currentTetromino hl0
      have hflast := hfoot (lastIdxAux s.currentTetromino).toNat
        (by omega) j2 hj2 hv2
      rw [Int.toNat_of_nonneg hl0] at hflast
      have hco : s.row + lastIdxAux s.currentTetromino ≠
          (GRID_HEIGHT : ℤ) - 1 := by
        intro hco
        exact hog (by simp [isOnGround, findLastNonEmptyRowIdx, hco])
      constructor <;> omega
  · intro i j hi hj hv dr dc hog h0 h1 hoob
    obtain ⟨row, hrow⟩ : ∃ row, s.currentTetromino.get? i = some row := by
      rw [List.get?_eq_getElem?]
      exact ⟨_, List.getElem?_eq_getElem hi⟩
    have hrowD : s.currentTetromino.getD i [] = row := by
      rw [List.getD_eq_getD_get?, hrow]
      rfl
    have hjlen : j < row.length := by
      rw [← hrowD]
      exact hj
    have hget : row.get? j = some (row.getD j 0) := by
      rw [List.getD_eq_getD_get?]
      cases hx : row.get? j with
      | none =>
        rw [List.get?_eq_none] at hx
        omega
      | some x => rfl
    have hocc : jsGet row (j : ℤ) ≠ some 0 := by
      rw [jsGet_natCast, hget]
      intro hcon
      refine hv ?_
      rw [hrowD]
      exact Option.some.inj hcon
    have hnog : ¬ (isOnGround s = true) := by
      rw [hog]
      exact Bool.false_ne_true
    have hgr : jsGet s.grid ((i : ℤ) + s.row + dr) =
        some (s.grid.getD ((i : ℤ) + s.row + dr).toNat []) :=
      jsGet_eq_getD [] h0 (by omega)
    have hmem : s.grid.getD ((i : ℤ) + s.row + dr).toNat [] ∈ s.grid := by
      have hlt : ((i : ℤ) + s.row + dr).toNat < s.grid.length := by omega
      rw [List.getD_eq_getElem _ _ hlt]
      exact List.getElem_mem hlt
    have hwlen := hgw _ hmem
    have hnone : jsGet (s.grid.getD ((i : ℤ) + s.row + dr).toNat [])
        ((j : ℤ) + s.col + dc) = none := by
      refine jsGet_eq_none ?_
      rcases hoob with hlo | hhi2
      · exact Or.inl hlo
      · refine Or.inr ?_
        rw [hwlen]
        omega
    simp only [isCollidingAtCell, hrow, if_pos hocc, if_neg hnog, hgr, hnone]
    rfl

/-- C7 amended witness: at the wall state `csC7` both probes are defined,
and the left probe at occupied cell (1,0) — whose column index is `-1` —
reports a collision. -/
theorem collision_probes_row_safe_witness :
    (isSideColliding csC7 (-1)).isSome = true ∧
      (isStackingOnBlocks csC7).isSome = true ∧
      isCollidingAtCell csC7 1 0 0 (-1) = some true := by
  obtain ⟨h1, h2, h3⟩ :=
    collision_probes_row_safe csC7 (by decide) (by decide) (by decide)
  exact ⟨h1 (-1), h2, h3 1 0 (by decide) (by decide) (by decide) 0 (-1)
    (by decide) (by decide) (by decide) (by decide)⟩
